import Mathlib

/-!
Verification of the job-scheduling and process-supervision subsystem of the
TransVox API server (`api_server.py`).

The shallow embedding below models:
  * the progress extractor `_parse_pipeline_progress` and the per-line status
    update performed by `_run_full_pipeline`;
  * the result collector `_collect_outputs_from_dir` and the terminal step of
    `_execute_job`;
  * the module-level scheduler state (`JOB_STATUS`, `JOB_QUEUE`, `RUNNING_JOB`,
    `PROCESS_MAP`) together with the endpoints `cancel`, `stop_pipeline`,
    `progress`, `get_pipeline_status`, the admission check
    `_user_has_active_job` and the submission path of `process`;
  * a small-step event system for the worker loop (`_job_worker`) interleaved
    with submissions and cancellations, used for the temporal properties;
  * an operating-system process-table model for `_kill_process_tree`.

Timestamps (`ts` fields, `createdAt`/`updatedAt`) are omitted throughout: no
claim depends on wall-clock values.  File-system presence is modelled by a
predicate `String → Bool` on path strings; the Python code's conversion of
paths to project-relative form is collapsed to plain joined path strings,
since only presence/absence of artifacts is at stake.
-/

namespace TransVox

/-! ## Python string primitives used by the progress extractor -/

/-- Whitespace characters removed by Python's `str.strip()` (ASCII subset, the
only ones that occur in pipeline output). -/
def isPyWhitespace (c : Char) : Bool :=
  c = ' ' || c = '\t' || c = '\n' || c = '\r' || c = '\x0b' || c = '\x0c'

/-- Python `str.strip()` on a character list. -/
def pyStrip (l : List Char) : List Char :=
  ((l.dropWhile isPyWhitespace).reverse.dropWhile isPyWhitespace).reverse

/-- Python substring containment `pat in s` on character lists. -/
def subIn (pat : List Char) : List Char → Bool
  | [] => pat.isEmpty
  | c :: t => pat.isPrefixOf (c :: t) || subIn pat t

/-- Python `str.lower()` (ASCII case folding; the patterns involved are ASCII
or Chinese, where this agrees with Python). -/
def pyLower (l : List Char) : List Char := l.map Char.toLower

/-! ## Progress extractor: `_parse_pipeline_progress` (api_server.py 1130-1190) -/

/-- Direct transcription of `_parse_pipeline_progress`: classify one line of
pipeline-runner output into `(step_name, progress_percent)` or `none`.  The
nested `if`/`elif` chain of the Python source is preserved, including the
fall-through to `none` when a `[Step N]` marker matches but no sub-pattern
does.  Note that `'stepA' in line.lower()` and `'stepB' in line.lower()` test
a pattern containing an upper-case letter against a lower-cased line. -/
def _parse_pipeline_progress (line0 : String) : Option (String × Nat) :=
  let l : List Char := pyStrip line0.data
  let low : List Char := pyLower l
  let has : String → Bool := fun pat => subIn pat.data l
  let hasLow : String → Bool := fun pat => subIn pat.data low
  if has "开始全自动视频翻译流水线" then some ("pipeline_start", 5)
  else if has "[Step 1]" then
    (if has "音视频处理和转录" then some ("audio_separation", 10)
     else if has "完成" then some ("audio_separation_done", 35)
     else none)
  else if hasLow "stepA" || has "分离音频" then some ("audio_processing", 15)
  else if hasLow "whisperx" || has "转录" then some ("transcription", 20)
  else if has "说话人识别" || hasLow "diarization" then some ("diarization", 25)
  else if has "[Step 2]" then
    (if has "翻译字幕" then some ("translation", 40)
     else if has "完成" then some ("translation_done", 55)
     else none)
  else if hasLow "step4_translate" || has "翻译中" then some ("translating", 45)
  else if has "[Step 3]" then
    (if has "IndexTTS" || has "GPT-SoVITS" then some ("tts_synthesis", 60)
     else if has "完成" then some ("tts_done", 85)
     else none)
  else if hasLow "stepB" || has "TTS" then some ("tts_processing", 65)
  else if has "生成TTS音频" || hasLow "generating audio" then some ("tts_generating", 75)
  else if hasLow "merge" || has "合并" then
    (if has "开始" || hasLow "start" then some ("merging_start", 88)
     else if has "完成" || hasLow "done" then some ("merging_done", 95)
     else some ("merging", 90))
  else if has "流水线执行完成" || has "所有步骤已完成" then some ("completed", 98)
  else if has "最终视频" || hasLow "final video" then some ("final_video", 96)
  else none

/-- The Chinese display-name table applied by `_run_full_pipeline` before
storing the step label (api_server.py 1282-1301); unknown names map to
themselves. -/
def stepDisplay (stepName : String) : String :=
  if stepName = "pipeline_start" then "启动流水线"
  else if stepName = "audio_separation" then "音视频分离"
  else if stepName = "audio_processing" then "处理音频"
  else if stepName = "transcription" then "语音转录"
  else if stepName = "diarization" then "说话人识别"
  else if stepName = "audio_separation_done" then "音视频处理完成"
  else if stepName = "translation" then "字幕翻译"
  else if stepName = "translating" then "翻译处理中"
  else if stepName = "translation_done" then "翻译完成"
  else if stepName = "tts_synthesis" then "TTS语音合成"
  else if stepName = "tts_processing" then "TTS处理中"
  else if stepName = "tts_generating" then "生成配音"
  else if stepName = "tts_done" then "TTS合成完成"
  else if stepName = "merging_start" then "开始合并"
  else if stepName = "merging" then "音视频合并"
  else if stepName = "merging_done" then "合并完成"
  else if stepName = "final_video" then "生成最终视频"
  else if stepName = "completed" then "流水线执行完成"
  else stepName

/-! ## Data model: `JOB_STATUS` records and scheduler state -/

/-- The `status` strings stored in `JOB_STATUS` entries. -/
inductive JobStatus
  | queued
  | running
  | succeeded
  | failed
  | cancelled
  deriving DecidableEq, Repr

/-- Terminal statuses (`Succeeded | Failed | Cancelled`). -/
def isTerminal : JobStatus → Bool
  | .succeeded => true
  | .failed => true
  | .cancelled => true
  | _ => false

/-- The `data` dict attached to a job on success: output-artifact paths
produced by `_collect_outputs_from_dir` plus the identity keys added by
`_execute_job` (api_server.py 479-489). -/
structure OutData where
  output_dir : String
  initial_srt : Option String
  merged_srt : Option String
  translated_srt : Option String
  final_video : Option String
  user_id : Option String
  job_id : Option String
  deriving DecidableEq, Repr

/-- One `JOB_STATUS[job_id]` dict.  `step` is `none` when the dict has no
`step` key (as in the freshly queued records), `cancelFlag` models the
`cancel` key, `error`/`error_details` the failure diagnostics. -/
structure JobRec where
  status : JobStatus
  step : Option String
  progress : Nat
  user_id : Option String
  cancelFlag : Bool
  data : Option OutData
  error : Option String
  error_details : Option String
  deriving DecidableEq, Repr

/-- One entry of `JOB_QUEUE` (the fields of the job dict that the scheduler
itself reads; the immutable run config is irrelevant to the claims). -/
structure Job where
  job_id : String
  user_id : String
  deriving DecidableEq, Repr

/-- The module-level scheduler state: `JOB_STATUS`, `JOB_QUEUE`,
`RUNNING_JOB`, `PROCESS_MAP` (job id ↦ pid of the spawned runner), plus the
control state `busy` recording which job the single worker coroutine is
currently inside `_execute_job` for (the worker is one perpetual coroutine,
so `busy` is the job between `popleft` and the return of `_execute_job`). -/
structure SchedState where
  jobStatus : List (String × JobRec)
  jobQueue : List Job
  runningJob : Option Job
  processMap : List (String × Nat)
  busy : Option Job
  deriving DecidableEq, Repr

/-- Association-list lookup (`dict.get`). -/
def lookupA {β : Type} (l : List (String × β)) (k : String) : Option β :=
  (l.find? (fun p => p.1 == k)).map (fun p => p.2)

/-- Association-list assignment (`dict[k] = v`): replace the first binding of
`k`, or append a fresh one. -/
def upsert {β : Type} : List (String × β) → String → β → List (String × β)
  | [], k, v => [(k, v)]
  | (k', v') :: t, k, v => if k' == k then (k, v) :: t else (k', v') :: upsert t k v

/-- Association-list deletion (`dict.pop(k, None)`). -/
def removeKey {β : Type} (l : List (String × β)) (k : String) : List (String × β) :=
  l.filter (fun p => p.1 != k)

/-- `JOB_STATUS.get(job_id)`. -/
def lookupStatus (s : SchedState) (jid : String) : Option JobRec :=
  lookupA s.jobStatus jid

/-- `JOB_STATUS[job_id] = rec`. -/
def setStatus (s : SchedState) (jid : String) (rec : JobRec) : SchedState :=
  { s with jobStatus := upsert s.jobStatus jid rec }

/-- `PROCESS_MAP.get(job_id)`. -/
def lookupProc (s : SchedState) (jid : String) : Option Nat :=
  lookupA s.processMap jid

/-! ## Per-line status update of `_run_full_pipeline` (api_server.py 1276-1331) -/

/-- The default `OutData` created by `JOB_STATUS[job_id]['data'] = {}`. -/
def emptyOutData : OutData :=
  { output_dir := ""
    initial_srt := none
    merged_srt := none
    translated_srt := none
    final_video := none
    user_id := none
    job_id := none }

/-- The status update `_run_full_pipeline` performs for one line of runner
output once the cancellation check has passed: parse the line; on a match,
overwrite `status`/`step`/`progress`/`user_id` of the job record, and on
`translation_done` additionally attach the translated-subtitle path when it
already exists on disk (`fs`).  A non-matching line leaves the record
unchanged. -/
def applyPipelineLine (fs : String → Bool) (output_dir : Option String)
    (video_stem : String) (user_id : Option String) (st : JobRec)
    (line : String) : JobRec :=
  match _parse_pipeline_progress line with
  | none => st
  | some (stepName, prog) =>
      let st1 : JobRec :=
        { st with
          status := .running
          step := some (stepDisplay stepName)
          progress := prog
          user_id := user_id }
      match output_dir with
      | some od =>
          if stepName = "translation_done" then
            let path := od ++ "/" ++ video_stem ++ ".translated.srt"
            if fs path then
              let d := (st1.data.getD emptyOutData)
              { st1 with data := some { d with translated_srt := some path } }
            else st1
          else st1
      | none => st1

/-! ## Result collector and the terminal step of `_execute_job` -/

/-- `_collect_outputs_from_dir` (api_server.py 1423-1473): probe the four
expected artifact paths and return whichever exist; absent artifacts become
`none` fields and never raise. -/
def _collect_outputs_from_dir (fs : String → Bool) (out_dir stem : String) : OutData :=
  let initial_srt := out_dir ++ "/" ++ stem ++ ".srt"
  let merged_srt := out_dir ++ "/" ++ stem ++ "_merged_optimized.srt"
  let translated_srt := out_dir ++ "/" ++ stem ++ ".translated.srt"
  let final_video := out_dir ++ "/merge/" ++ stem ++ "_dubbed.mp4"
  { output_dir := out_dir
    initial_srt := if fs initial_srt then some initial_srt else none
    merged_srt := if fs merged_srt then some merged_srt else none
    translated_srt := if fs translated_srt then some translated_srt else none
    final_video := if fs final_video then some final_video else none
    user_id := none
    job_id := none }

/-- The tail of `_execute_job` in the full-pipeline branch (api_server.py
449-500): if `_run_full_pipeline` returned `False` the job record becomes
`failed` with the captured pipeline error; otherwise the outputs are collected
from the namespace directory and the record becomes `succeeded` with
`progress = 100` — unconditionally, whatever `fs` says about the artifacts. -/
def executeJobOutcome (fs : String → Bool) (pipeline_success : Bool)
    (out_dir stem user_id job_id : String) (pipelineErr : Option String)
    (errDetails : Option String) : JobRec :=
  if pipeline_success = false then
    { status := .failed
      step := some "pipeline_failed"
      progress := 0
      user_id := some user_id
      cancelFlag := false
      data := none
      error := some (pipelineErr.getD "流水线执行失败，请查看日志获取详细信息")
      error_details := errDetails }
  else
    let d0 := _collect_outputs_from_dir fs out_dir stem
    let d : OutData := { d0 with user_id := some user_id, job_id := some job_id }
    { status := .succeeded
      step := some "done"
      progress := 100
      user_id := some user_id
      cancelFlag := false
      data := some d
      error := none
      error_details := none }

/-! ## Claims C1 and C2 -/

/-- A job record mid-run whose stored progress is 85 (TTS synthesis finished),
as left by an earlier `[Step 3] ... 完成` line. -/
def recAt85 : JobRec :=
  { status := .running, step := some "TTS合成完成", progress := 85,
    user_id := some "u1", cancelFlag := false, data := none, error := none,
    error_details := none }

/-- C1 (counterexample): `_run_full_pipeline` has no monotonicity guard.  A
job whose stored percent is 85 that then sees the line `"转录中"` (which the
extractor classifies as `transcription` at 20%) gets its stored percent
overwritten to 20 < 85, so a later malformed/echoed line does regress the
displayed progress, contrary to the claim. -/
theorem c1_progress_regresses_counterexample :
    _parse_pipeline_progress "转录中" = some ("transcription", 20) ∧
    (applyPipelineLine (fun _ => false) none "v" (some "u1") recAt85 "转录中").progress = 20 ∧
    recAt85.progress = 85 :=
  ⟨by decide, by decide, by decide⟩

/-- C1 (amended): whenever a line parses to `(stage, percent)`, the stored
percent is overwritten with the parsed value unconditionally — whether or not
it is smaller than the current value — so the observed percent sequence of a
running job need not be non-decreasing. -/
theorem c1_update_unconditional (fs : String → Bool) (od : Option String)
    (vs : String) (uid : Option String) (st : JobRec) (line stepName : String)
    (p : Nat) (h : _parse_pipeline_progress line = some (stepName, p)) :
    (applyPipelineLine fs od vs uid st line).progress = p := by
  cases od with
  | none => simp only [applyPipelineLine, h]
  | some o =>
      by_cases h1 : stepName = "translation_done" <;>
        simp only [applyPipelineLine, h, h1, reduceIte, if_true, if_false] <;>
        split <;> rfl

/-- C1 (witness for the amended theorem): a concrete line overwriting the
stored progress with its parsed anchor. -/
theorem c1_update_unconditional_witness :
    _parse_pipeline_progress "转录中" = some ("transcription", 20) ∧
    (applyPipelineLine (fun _ => true) (some "od") "v" (some "u1") recAt85 "转录中").progress = 20 :=
  ⟨by decide,
   c1_update_unconditional (fun _ => true) (some "od") "v" (some "u1") recAt85
     "转录中" "transcription" 20 (by decide)⟩

/-- A file system on which no artifact exists. -/
def fsEmpty : String → Bool := fun _ => false

/-- C2 (counterexample): a run whose pipeline invocation reports success
(exit code 0) but whose mandatory final artifact `<stem>_dubbed.mp4` is
absent on disk still ends with status `succeeded` — the final-video field is
merely `none`; the absence is never converted into a `Failed` result. -/
theorem c2_missing_artifact_still_succeeds_counterexample :
    (executeJobOutcome fsEmpty true "output/u1/j1/v" "v" "u1" "j1" none none).status = .succeeded ∧
    ((executeJobOutcome fsEmpty true "output/u1/j1/v" "v" "u1" "j1" none none).data.map
        OutData.final_video) = some none :=
  ⟨by decide, by decide⟩

/-- C2 (amended): the terminal status depends only on the pipeline runner's
reported outcome, never on artifact presence: a zero-exit run is `succeeded`
for every file-system state (missing artifacts appear only as `none` output
paths), and a failed run is `failed`. -/
theorem c2_status_ignores_artifacts (fs : String → Bool)
    (out_dir stem uid jid : String) (e ed : Option String) :
    (executeJobOutcome fs true out_dir stem uid jid e ed).status = .succeeded ∧
    (executeJobOutcome fs false out_dir stem uid jid e ed).status = .failed :=
  ⟨rfl, rfl⟩

/-! ## Cancellation coordinator: `/cancel` and `/api/pipeline/stop` -/

/-- External side effects performed on the operating system by an endpoint. -/
inductive Effect
  | killTree (pid : Nat)
  deriving DecidableEq, Repr

/-- Responses of the `/cancel` endpoint: HTTP 404, HTTP 403, the
queued-removal acknowledgement, or the running-cancel acknowledgement. -/
inductive CancelResp
  | notFound
  | forbidden
  | okQueued
  | okRunning
  deriving DecidableEq, Repr

/-- Owner resolution `st.get('data', {}).get('user_id') or st.get('user_id')`
used by `/cancel`, `/api/pipeline/stop` and `/api/pipeline/clear`. -/
def ownerOf (st : JobRec) : Option String :=
  match st.data with
  | some d =>
      match d.user_id with
      | some u => some u
      | none => st.user_id
  | none => st.user_id

/-- The fresh record `{'status': 'cancelled', 'step': 'cancelled',
'progress': 0, 'user_id': user_id}` that both cancellation endpoints store,
*replacing* whatever record (including its `data`, `error` and `cancel`
fields) was there before. -/
def cancelledRec (uid : String) : JobRec :=
  { status := .cancelled, step := some "cancelled", progress := 0,
    user_id := some uid, cancelFlag := false, data := none, error := none,
    error_details := none }

/-- The `/cancel` endpoint (api_server.py 878-935).  Returns the new
scheduler state, the HTTP response, and the OS side effects performed.
Queued path: remove the requester-owned queue entry and store a fresh
cancelled record.  Otherwise: set the `cancel` flag, kill the registered
process tree (if any) and drop it from `PROCESS_MAP`, then overwrite the
record with a fresh cancelled record and release `RUNNING_JOB` if it is this
job. -/
def cancel (s : SchedState) (job_id user_id : String) :
    SchedState × CancelResp × List Effect :=
  match lookupStatus s job_id with
  | none => (s, .notFound, [])
  | some st =>
      let ownerFail : Bool :=
        match ownerOf st with
        | some o => o != user_id
        | none => false
      if ownerFail then (s, .forbidden, [])
      else
        let qMatch : Job → Bool := fun j => j.job_id == job_id && j.user_id == user_id
        if (s.jobQueue.find? qMatch).isSome then
          let s1 : SchedState := { s with jobQueue := s.jobQueue.eraseP qMatch }
          (setStatus s1 job_id (cancelledRec user_id), .okQueued, [])
        else
          let stFlagged : JobRec :=
            { st with
              cancelFlag := true
              user_id := match ownerOf st with | some o => some o | none => some user_id }
          let s1 := setStatus s job_id stFlagged
          let killed : List Effect × SchedState :=
            match lookupProc s job_id with
            | some pid => ([.killTree pid], { s1 with processMap := removeKey s.processMap job_id })
            | none => ([], s1)
          let s2 := setStatus killed.2 job_id (cancelledRec user_id)
          let s3 : SchedState :=
            match s.runningJob with
            | some j => if j.job_id == job_id then { s2 with runningJob := none } else s2
            | none => s2
          (s3, .okRunning, killed.1)

/-- Responses of the `/api/pipeline/stop/{taskId}` endpoint. -/
inductive StopResp
  | notFound
  | forbidden
  | okQueuedRemoved
  | okStopped
  deriving DecidableEq, Repr

/-- The `/api/pipeline/stop/{taskId}` endpoint (api_server.py 596-673).  Like
`/cancel` but the queue match is by task id only, and the cancelled record is
always stored (also on the queued path after removal). -/
def stop_pipeline (s : SchedState) (taskId user_id : String) :
    SchedState × StopResp × List Effect :=
  match lookupStatus s taskId with
  | none => (s, .notFound, [])
  | some st =>
      let ownerFail : Bool :=
        match ownerOf st with
        | some o => o != user_id
        | none => false
      if ownerFail then (s, .forbidden, [])
      else
        let qMatch : Job → Bool := fun j => j.job_id == taskId
        if (s.jobQueue.find? qMatch).isSome then
          let s1 : SchedState := { s with jobQueue := s.jobQueue.eraseP qMatch }
          (setStatus s1 taskId (cancelledRec user_id), .okQueuedRemoved, [])
        else
          let killed : List Effect × SchedState :=
            match lookupProc s taskId with
            | some pid => ([.killTree pid], { s with processMap := removeKey s.processMap taskId })
            | none => ([], s)
          let s2 := setStatus killed.2 taskId (cancelledRec user_id)
          let s3 : SchedState :=
            match s.runningJob with
            | some j => if j.job_id == taskId then { s2 with runningJob := none } else s2
            | none => s2
          (s3, .okStopped, killed.1)

/-! ## Dictionary lemmas -/

theorem lookupA_upsert_self {β : Type} (l : List (String × β)) (k : String) (v : β) :
    lookupA (upsert l k v) k = some v := by
  induction l with
  | nil => simp [upsert, lookupA]
  | cons p t ih =>
      rcases p with ⟨k', v'⟩
      by_cases h : k' = k
      · subst h
        simp [upsert, lookupA]
      · simp only [upsert, beq_iff_eq, if_neg h, lookupA, List.find?]
        have hf : ((k', v').1 == k) = false := by simpa using h
        simp only [hf]
        exact ih

theorem lookupA_upsert_ne {β : Type} (l : List (String × β)) (k k' : String) (v : β)
    (h : k' ≠ k) : lookupA (upsert l k v) k' = lookupA l k' := by
  induction l with
  | nil =>
      simp only [upsert, lookupA, List.find?]
      have : ((k, v).1 == k') = false := by simpa using fun hh => h hh.symm
      simp [this]
  | cons p t ih =>
      rcases p with ⟨k0, v0⟩
      by_cases h0 : k0 = k
      · subst h0
        simp only [upsert, beq_self_eq_true, if_pos, lookupA, List.find?]
        have h1 : ((k0, v).1 == k') = false := by simpa using fun hh => h hh.symm
        have h2 : ((k0, v0).1 == k') = false := by simpa using fun hh => h hh.symm
        simp [h1, h2]
      · simp only [upsert, beq_iff_eq, if_neg h0, lookupA, List.find?]
        by_cases h1 : k0 = k'
        · subst h1
          simp
        · have h2 : ((k0, v0).1 == k') = false := by simpa using h1
          simp only [h2, cond_false]
          exact ih

theorem lookupA_removeKey_self {β : Type} (l : List (String × β)) (k : String) :
    lookupA (removeKey l k) k = none := by
  induction l with
  | nil => rfl
  | cons p t ih =>
      rcases p with ⟨k0, v0⟩
      by_cases h : k0 = k
      · subst h
        simpa [removeKey, lookupA] using ih
      · simp only [removeKey, List.filter]
        have h1 : ((k0, v0).1 != k) = true := by simpa using h
        simp only [h1]
        simp only [lookupA, List.find?]
        have h2 : ((k0, v0).1 == k) = false := by simpa using h
        simp only [h2, cond_false]
        simpa [removeKey, lookupA] using ih

theorem lookupA_removeKey_ne {β : Type} (l : List (String × β)) (k k' : String)
    (h : k' ≠ k) : lookupA (removeKey l k) k' = lookupA l k' := by
  induction l with
  | nil => rfl
  | cons p t ih =>
      rcases p with ⟨k0, v0⟩
      by_cases h0 : k0 = k
      · subst h0
        have h1 : ((k0, v0).1 != k0) = false := by simp
        have h2 : ((k0, v0).1 == k') = false := by simpa using fun hh => h hh.symm
        simp only [removeKey, List.filter, h1, lookupA, List.find?, h2, cond_false]
        simpa [removeKey, lookupA] using ih
      · have h1 : ((k0, v0).1 != k) = true := by simpa using h0
        simp only [removeKey, List.filter, h1, lookupA, List.find?]
        by_cases h2 : k0 = k'
        · subst h2
          simp
        · have h3 : ((k0, v0).1 == k') = false := by simpa using h2
          simp only [h3, cond_false]
          simpa [removeKey, lookupA] using ih

theorem lookupStatus_setStatus_self (s : SchedState) (jid : String) (r : JobRec) :
    lookupStatus (setStatus s jid r) jid = some r :=
  lookupA_upsert_self s.jobStatus jid r

theorem lookupStatus_setStatus_ne (s : SchedState) (jid k : String) (r : JobRec)
    (h : k ≠ jid) : lookupStatus (setStatus s jid r) k = lookupStatus s k :=
  lookupA_upsert_ne s.jobStatus jid k r h

theorem lookupProc_setStatus (s : SchedState) (jid k : String) (r : JobRec) :
    lookupProc (setStatus s jid r) k = lookupProc s k := rfl

theorem runningJob_setStatus (s : SchedState) (jid : String) (r : JobRec) :
    (setStatus s jid r).runningJob = s.runningJob := rfl

/-! ## Claims C3 and C4 -/

/-- C3 (amended theorem): terminal statuses are not sticky.  A `/cancel`
request by the owner of a job whose record is already terminal (and which is
not in the queue) is not rejected: it succeeds and *overwrites* the record
with a fresh cancelled one, discarding the stored result/error. -/
theorem c3_cancel_overwrites_terminal (s : SchedState) (jid uid : String)
    (st : JobRec) (hlk : lookupStatus s jid = some st)
    (hterm : isTerminal st.status = true)
    (howner : ownerOf st = some uid)
    (hq : s.jobQueue.find? (fun j => j.job_id == jid && j.user_id == uid) = none) :
    (cancel s jid uid).2.1 = CancelResp.okRunning ∧
    lookupStatus (cancel s jid uid).1 jid = some (cancelledRec uid) := by
  unfold cancel
  rw [hlk]
  simp only [howner, bne_self_eq_false, if_neg, Bool.false_eq_true, hq, Option.isSome_none,
    reduceIte]
  refine ⟨?_, ?_⟩
  · trivial
  · split <;> (try split) <;> (try split) <;>
      exact lookupStatus_setStatus_self _ jid (cancelledRec uid)

/-- A successful job's attached result data. -/
def c3data : OutData :=
  { output_dir := "output/u1/j1/v"
    initial_srt := some "output/u1/j1/v/v.srt"
    merged_srt := none
    translated_srt := some "output/u1/j1/v/v.translated.srt"
    final_video := some "u1/j1/v/merge/v_dubbed.mp4"
    user_id := some "u1"
    job_id := some "j1" }

/-- A job record that has already reached the terminal status `succeeded`. -/
def c3rec : JobRec :=
  { status := .succeeded, step := some "done", progress := 100,
    user_id := some "u1", cancelFlag := false, data := some c3data,
    error := none, error_details := none }

/-- A scheduler state holding only the finished job `j1`. -/
def c3s : SchedState :=
  { jobStatus := [("j1", c3rec)], jobQueue := [], runningJob := none,
    processMap := [], busy := none }

/-- C3 (counterexample): a job that has reached the terminal status
`succeeded` is mutated again by a later `/cancel` from its owner — the second
terminal transition is accepted, the record is overwritten to `cancelled` and
its result data is dropped — contradicting "no operation ever mutates any
field of a terminal job's record; a second terminal transition is
rejected". -/
theorem c3_terminal_mutated_counterexample :
    (lookupStatus c3s "j1").map JobRec.status = some JobStatus.succeeded ∧
    (cancel c3s "j1" "u1").2.1 = CancelResp.okRunning ∧
    (lookupStatus (cancel c3s "j1" "u1").1 "j1").map JobRec.status = some JobStatus.cancelled ∧
    (lookupStatus (cancel c3s "j1" "u1").1 "j1").map JobRec.data = some none := by
  refine ⟨by decide, by decide, by decide, by decide⟩

/-- C3 (witness): the amended theorem applied to the concrete finished job. -/
theorem c3_cancel_overwrites_terminal_witness :
    (lookupStatus c3s "j1" = some c3rec ∧ isTerminal c3rec.status = true ∧
      ownerOf c3rec = some "u1") ∧
    ((cancel c3s "j1" "u1").2.1 = CancelResp.okRunning ∧
      lookupStatus (cancel c3s "j1" "u1").1 "j1" = some (cancelledRec "u1")) :=
  ⟨⟨by decide, by decide, by decide⟩,
   c3_cancel_overwrites_terminal c3s "j1" "u1" c3rec (by decide) (by decide)
     (by decide) (by decide)⟩

/-- C4 (amended theorem): for a running job with a registered process, the
`/cancel` endpoint itself performs the process-tree kill, removes the process
from `PROCESS_MAP`, immediately writes the `cancelled` transition, and
releases `RUNNING_JOB` — the worker loop is not the component performing
these steps. -/
theorem c4_cancel_kills_directly (s : SchedState) (jid uid : String)
    (st : JobRec) (pid : Nat) (rj : Job)
    (hlk : lookupStatus s jid = some st)
    (howner : ownerOf st = some uid)
    (hq : s.jobQueue.find? (fun j => j.job_id == jid && j.user_id == uid) = none)
    (hproc : lookupProc s jid = some pid)
    (hrun : s.runningJob = some rj) (hrj : rj.job_id = jid) :
    (cancel s jid uid).2.2 = [Effect.killTree pid] ∧
    lookupStatus (cancel s jid uid).1 jid = some (cancelledRec uid) ∧
    lookupProc (cancel s jid uid).1 jid = none ∧
    (cancel s jid uid).1.runningJob = none := by
  unfold cancel
  rw [hlk]
  simp only [howner, bne_self_eq_false, Bool.false_eq_true, hq, Option.isSome_none, reduceIte]
  split <;> rename_i hp
  case _ pid' =>
    obtain rfl : pid = pid' := Option.some.inj (hproc.symm.trans hp)
    split <;> rename_i hr
    case _ j =>
      obtain rfl : rj = j := Option.some.inj (hrun.symm.trans hr)
      have hb : (rj.job_id == jid) = true := by simp [hrj]
      rw [hb]
      simp only [reduceIte]
      refine ⟨trivial, ?_, ?_, trivial⟩
      · exact lookupStatus_setStatus_self _ jid (cancelledRec uid)
      · exact lookupA_removeKey_self _ jid
    case _ =>
      rw [hrun] at hr
      exact absurd hr (by simp)
  case _ =>
    rw [hproc] at hp
    exact absurd hp (by simp)

/-- A running job record at the TTS stage. -/
def c4rec : JobRec :=
  { status := .running, step := some "TTS语音合成", progress := 60,
    user_id := some "u1", cancelFlag := false, data := none, error := none,
    error_details := none }

/-- A scheduler state in which `j1` is running with registered pid 4242. -/
def c4s : SchedState :=
  { jobStatus := [("j1", c4rec)], jobQueue := [],
    runningJob := some ⟨"j1", "u1"⟩, processMap := [("j1", 4242)],
    busy := some ⟨"j1", "u1"⟩ }

/-- C4 (counterexample): cancelling a running job does much more than set the
cancel-requested flag: the `/cancel` handler itself kills the process tree
(effect `killTree 4242`), writes the `cancelled` status, and clears the
running slot, without waiting for the worker loop to observe any flag. -/
theorem c4_cancel_not_flag_only_counterexample :
    (lookupStatus c4s "j1").map JobRec.status = some JobStatus.running ∧
    (cancel c4s "j1" "u1").2.2 = [Effect.killTree 4242] ∧
    (lookupStatus (cancel c4s "j1" "u1").1 "j1").map JobRec.status = some JobStatus.cancelled ∧
    (cancel c4s "j1" "u1").1.runningJob = none := by
  refine ⟨by decide, by decide, by decide, by decide⟩

/-- C4 (witness): the amended theorem applied to the concrete running job. -/
theorem c4_cancel_kills_directly_witness :
    (lookupStatus c4s "j1" = some c4rec ∧ ownerOf c4rec = some "u1" ∧
      lookupProc c4s "j1" = some 4242) ∧
    ((cancel c4s "j1" "u1").2.2 = [Effect.killTree 4242] ∧
      lookupStatus (cancel c4s "j1" "u1").1 "j1" = some (cancelledRec "u1") ∧
      lookupProc (cancel c4s "j1" "u1").1 "j1" = none ∧
      (cancel c4s "j1" "u1").1.runningJob = none) :=
  ⟨⟨by decide, by decide, by decide⟩,
   c4_cancel_kills_directly c4s "j1" "u1" c4rec 4242 ⟨"j1", "u1"⟩ (by decide)
     (by decide) (by decide) (by decide) (by decide) (by decide)⟩

/-! ## Worker loop and interleaving model

The API server runs on one asyncio event loop.  The worker (`_job_worker`)
is a single perpetual coroutine: it pops a queue head, marks it running, and
`await`s `_execute_job` to completion before looping.  Endpoint handlers
(`/process`, `/cancel`, `/api/pipeline/stop`) interleave with it only at
`await` points.  The event system below has one event per atomic (no-`await`)
state-mutating section relevant to the claims.  `busy` records the job the
worker coroutine is currently inside `_execute_job` for; while `busy` is set
the worker cannot be at its loop head, so no second dequeue can happen.
`progressLine` models the per-line `JOB_STATUS` update done by
`_run_full_pipeline` from the executor thread; it is modelled as enabled
whenever the worker is busy on the job (the Python code also checks that the
status is not `cancelled` first, but the check and the update run on a thread
that interleaves arbitrarily with the event loop, so the more permissive
model is the sound one).  `finish` models the terminal write of
`_execute_job` together with the worker's release of `RUNNING_JOB` (no
`await` separates them), with an arbitrary terminal record covering the
`succeeded`/`failed`/`cancelled` variants the code writes. -/

/-- The freshly queued record `{'status': 'queued', 'progress': 0,
'user_id': user_id}` written by `/process` (api_server.py 2260). -/
def queuedRec (uid : String) : JobRec :=
  { status := .queued, step := none, progress := 0, user_id := some uid,
    cancelFlag := false, data := none, error := none, error_details := none }

/-- The record written by the worker when it dequeues a job
(api_server.py 224). -/
def runningStartRec (uid : String) : JobRec :=
  { status := .running, step := some "start", progress := 0,
    user_id := some uid, cancelFlag := false, data := none, error := none,
    error_details := none }

/-- Atomic events of the scheduler. -/
inductive Ev
  | submit (j : Job)
  | workerPick
  | spawn (pid : Nat)
  | progressLine (line : String)
  | finish (r : JobRec)
  | cancelReq (job_id user_id : String)
  | stopReq (task_id user_id : String)
  deriving DecidableEq, Repr

/-- Guarded small-step semantics: `step s e = some s'` when event `e` is
enabled at `s` and produces `s'`.
  * `submit j`: the admission-passed tail of `/process` — record `queued`,
    append to the queue; job ids are fresh uuid4 hex strings, modelled by the
    freshness guard.
  * `workerPick`: the worker loop head — only when the worker is idle
    (`busy = none`), `RUNNING_JOB is None` and the queue is non-empty; pops
    the head, strict FIFO.
  * `spawn pid`: `PROCESS_MAP[job_id] = proc` for the busy job (the `_run`
    helper and `_run_full_pipeline` registration).
  * `progressLine line`: one line-update of `_run_full_pipeline` for the busy
    job.
  * `finish r`: `_execute_job` stores a terminal record, pops `PROCESS_MAP`,
    and the worker clears `RUNNING_JOB`/its busy slot.
  * `cancelReq`/`stopReq`: the `/cancel` and `/api/pipeline/stop` endpoints,
    when they act (404/403 responses are state-identity and omitted). -/
def step (s : SchedState) : Ev → Option SchedState
  | .submit j =>
      match lookupStatus s j.job_id with
      | none =>
          some { setStatus s j.job_id (queuedRec j.user_id) with
                 jobQueue := s.jobQueue ++ [j] }
      | some _ => none
  | .workerPick =>
      match s.busy, s.runningJob, s.jobQueue with
      | none, none, j :: rest =>
          some { setStatus s j.job_id (runningStartRec j.user_id) with
                 jobQueue := rest, runningJob := some j, busy := some j }
      | _, _, _ => none
  | .spawn pid =>
      match s.busy with
      | some j => some { s with processMap := upsert s.processMap j.job_id pid }
      | none => none
  | .progressLine line =>
      match s.busy with
      | some j =>
          match lookupStatus s j.job_id with
          | some st =>
              some (setStatus s j.job_id
                (applyPipelineLine (fun _ => false) none "" (some j.user_id) st line))
          | none => none
      | none => none
  | .finish r =>
      match s.busy with
      | some j =>
          if isTerminal r.status then
            some { setStatus s j.job_id r with
                   processMap := removeKey s.processMap j.job_id,
                   busy := none, runningJob := none }
          else none
      | none => none
  | .cancelReq jid uid =>
      match (cancel s jid uid).2.1 with
      | .okQueued => some (cancel s jid uid).1
      | .okRunning => some (cancel s jid uid).1
      | _ => none
  | .stopReq tid uid =>
      match (stop_pipeline s tid uid).2.1 with
      | .okQueuedRemoved => some (stop_pipeline s tid uid).1
      | .okStopped => some (stop_pipeline s tid uid).1
      | _ => none

/-- The state at server start: empty registry, empty queue, idle worker. -/
def initState : SchedState :=
  { jobStatus := [], jobQueue := [], runningJob := none, processMap := [],
    busy := none }

/-- States reachable from server start. -/
inductive Reach : SchedState → Prop
  | init : Reach initState
  | next {s s' : SchedState} (e : Ev) : Reach s → step s e = some s' → Reach s'

/-! ## Characterization of the cancellation endpoints -/

/-- Job ids of the queue entries, in order. -/
def queueIds (q : List Job) : List String := q.map Job.job_id

/-- Case analysis of `/cancel`: either it is a 404/403 no-op, or the queued
path removed the entry and stored a cancelled record, or the running path
stored a cancelled record (after an intermediate flagged write), left the
queue and the worker slot untouched, and possibly dropped the process entry
and released `RUNNING_JOB`. -/
theorem cancel_resp_cases (s : SchedState) (jid uid : String) :
    (((cancel s jid uid).2.1 = .notFound ∨ (cancel s jid uid).2.1 = .forbidden) ∧
        (cancel s jid uid).1 = s) ∨
    ((cancel s jid uid).2.1 = .okQueued ∧
        (cancel s jid uid).1 = { s with
          jobStatus := upsert s.jobStatus jid (cancelledRec uid)
          jobQueue := s.jobQueue.eraseP (fun j => j.job_id == jid && j.user_id == uid) }) ∨
    ((cancel s jid uid).2.1 = .okRunning ∧ ∃ stF : JobRec,
        (cancel s jid uid).1.jobStatus =
          upsert (upsert s.jobStatus jid stF) jid (cancelledRec uid) ∧
        (cancel s jid uid).1.jobQueue = s.jobQueue ∧
        (cancel s jid uid).1.busy = s.busy ∧
        ((cancel s jid uid).1.runningJob = s.runningJob ∨
          (cancel s jid uid).1.runningJob = none) ∧
        ((cancel s jid uid).1.processMap = s.processMap ∨
          (cancel s jid uid).1.processMap = removeKey s.processMap jid)) := by
  unfold cancel
  cases hlk : lookupStatus s jid with
  | none => exact Or.inl ⟨Or.inl rfl, rfl⟩
  | some st =>
      simp only []
      cases hof : (match ownerOf st with | some o => o != uid | none => false) with
      | true =>
          simp only [reduceIte]
          exact Or.inl ⟨Or.inr trivial, trivial⟩
      | false =>
          simp only [Bool.false_eq_true, reduceIte]
          by_cases hq : (s.jobQueue.find?
              (fun j => j.job_id == jid && j.user_id == uid)).isSome = true
          · simp only [hq, reduceIte]
            exact Or.inr (Or.inl ⟨trivial, rfl⟩)
          · simp only [hq, Bool.false_eq_true, reduceIte]
            refine Or.inr (Or.inr ⟨trivial, ?_⟩)
            refine ⟨{ st with
                cancelFlag := true
                user_id := match ownerOf st with | some o => some o | none => some uid },
              ?_, ?_, ?_, ?_, ?_⟩ <;>
              (split <;> (try split) <;> (try split) <;>
                first
                  | trivial
                  | rfl
                  | simp [setStatus])

/-- Case analysis of `/api/pipeline/stop`, analogous to `cancel_resp_cases`
(the queue match is by task id only). -/
theorem stop_resp_cases (s : SchedState) (tid uid : String) :
    (((stop_pipeline s tid uid).2.1 = .notFound ∨
        (stop_pipeline s tid uid).2.1 = .forbidden) ∧
        (stop_pipeline s tid uid).1 = s) ∨
    ((stop_pipeline s tid uid).2.1 = .okQueuedRemoved ∧
        (stop_pipeline s tid uid).1 = { s with
          jobStatus := upsert s.jobStatus tid (cancelledRec uid)
          jobQueue := s.jobQueue.eraseP (fun j => j.job_id == tid) }) ∨
    ((stop_pipeline s tid uid).2.1 = .okStopped ∧
        (stop_pipeline s tid uid).1.jobStatus = upsert s.jobStatus tid (cancelledRec uid) ∧
        (stop_pipeline s tid uid).1.jobQueue = s.jobQueue ∧
        (stop_pipeline s tid uid).1.busy = s.busy ∧
        ((stop_pipeline s tid uid).1.runningJob = s.runningJob ∨
          (stop_pipeline s tid uid).1.runningJob = none) ∧
        ((stop_pipeline s tid uid).1.processMap = s.processMap ∨
          (stop_pipeline s tid uid).1.processMap = removeKey s.processMap tid)) := by
  unfold stop_pipeline
  cases hlk : lookupStatus s tid with
  | none => exact Or.inl ⟨Or.inl rfl, rfl⟩
  | some st =>
      simp only []
      cases hof : (match ownerOf st with | some o => o != uid | none => false) with
      | true =>
          simp only [reduceIte]
          exact Or.inl ⟨Or.inr trivial, trivial⟩
      | false =>
          simp only [Bool.false_eq_true, reduceIte]
          by_cases hq : (s.jobQueue.find? (fun j => j.job_id == tid)).isSome = true
          · simp only [hq, reduceIte]
            exact Or.inr (Or.inl ⟨trivial, rfl⟩)
          · simp only [hq, Bool.false_eq_true, reduceIte]
            refine Or.inr (Or.inr ⟨trivial, ?_, ?_, ?_, ?_, ?_⟩) <;>
              (split <;> (try split) <;> (try split) <;>
                first
                  | trivial
                  | rfl
                  | simp [setStatus])

/-! ## Scheduler invariant -/

theorem isTerminal_ne_running {st : JobStatus} (h : isTerminal st = true) :
    st ≠ JobStatus.running := by
  cases st <;> simp_all [isTerminal]

theorem mem_queueIds {q : List Job} {a : String} :
    a ∈ queueIds q ↔ ∃ j, j ∈ q ∧ j.job_id = a := by
  simp [queueIds, List.mem_map]

/-- Structural invariant of every reachable scheduler state: a `running`
record always belongs to the job the worker is busy on (hence there is at
most one), queue ids are distinct, queued and busy jobs are registered, and
the busy job is no longer in the queue. -/
structure Inv (s : SchedState) : Prop where
  runImpBusy : ∀ jid st, lookupStatus s jid = some st → st.status = .running →
    ∃ j, s.busy = some j ∧ j.job_id = jid
  nodup : (queueIds s.jobQueue).Nodup
  inReg : ∀ j, j ∈ s.jobQueue → (lookupStatus s j.job_id).isSome = true
  busyInReg : ∀ j, s.busy = some j → (lookupStatus s j.job_id).isSome = true
  busyNotQueued : ∀ j, s.busy = some j → j.job_id ∉ queueIds s.jobQueue

theorem inv_init : Inv initState := by
  refine ⟨?_, ?_, ?_, ?_, ?_⟩ <;> simp [initState, lookupStatus, lookupA, queueIds]

theorem inv_step {s s' : SchedState} {e : Ev} (inv : Inv s)
    (hstep : step s e = some s') : Inv s' := by
  cases e with
  | submit j =>
      simp only [step] at hstep
      cases hlk : lookupStatus s j.job_id with
      | some st => rw [hlk] at hstep; cases hstep
      | none =>
          rw [hlk] at hstep
          cases hstep
          have hjfresh : j.job_id ∉ queueIds s.jobQueue := by
            intro hmem
            obtain ⟨j', hj', hid⟩ := mem_queueIds.mp hmem
            have := inv.inReg j' hj'
            rw [hid, hlk] at this
            exact absurd this (by simp)
          refine ⟨?_, ?_, ?_, ?_, ?_⟩
          · intro k st hk hrun
            simp only [lookupStatus, setStatus] at hk ⊢
            by_cases hkey : k = j.job_id
            · subst hkey
              rw [lookupA_upsert_self] at hk
              cases hk
              cases hrun
            · rw [lookupA_upsert_ne _ _ _ _ hkey] at hk
              exact inv.runImpBusy k st hk hrun
          · simp only [setStatus, queueIds, List.map_append, List.map_cons, List.map_nil]
            refine List.Nodup.append inv.nodup (by simp) ?_
            intro a ha hb
            rcases List.mem_singleton.mp hb with rfl
            exact hjfresh ha
          · intro jq hjq
            simp only [setStatus] at hjq
            simp only [lookupStatus, setStatus]
            rcases List.mem_append.mp hjq with hmem | hmem
            · by_cases hkey : jq.job_id = j.job_id
              · rw [hkey, lookupA_upsert_self]; rfl
              · rw [lookupA_upsert_ne _ _ _ _ hkey]
                exact inv.inReg jq hmem
            · rcases List.mem_singleton.mp hmem with rfl
              rw [lookupA_upsert_self]; rfl
          · intro b hb
            simp only [setStatus] at hb
            simp only [lookupStatus, setStatus]
            by_cases hkey : b.job_id = j.job_id
            · rw [hkey, lookupA_upsert_self]; rfl
            · rw [lookupA_upsert_ne _ _ _ _ hkey]
              exact inv.busyInReg b hb
          · intro b hb hmem
            simp only [setStatus] at hb hmem
            have hbid : b.job_id ≠ j.job_id := by
              intro heq
              have := inv.busyInReg b hb
              rw [heq, hlk] at this
              exact absurd this (by simp)
            simp only [queueIds, List.map_append, List.map_cons, List.map_nil] at hmem
            rcases List.mem_append.mp hmem with h1 | h1
            · exact inv.busyNotQueued b hb h1
            · exact hbid (List.mem_singleton.mp h1)
  | workerPick =>
      simp only [step] at hstep
      cases hbusy : s.busy with
      | some b => rw [hbusy] at hstep; cases hstep
      | none =>
          rw [hbusy] at hstep
          cases hrj : s.runningJob with
          | some b => rw [hrj] at hstep; cases hstep
          | none =>
              rw [hrj] at hstep
              cases hq : s.jobQueue with
              | nil => rw [hq] at hstep; cases hstep
              | cons j rest =>
                  rw [hq] at hstep
                  cases hstep
                  have hnodup := inv.nodup
                  rw [hq] at hnodup
                  simp only [queueIds, List.map_cons, List.nodup_cons] at hnodup
                  refine ⟨?_, ?_, ?_, ?_, ?_⟩
                  · intro k st hk hrun
                    simp only [setStatus]
                    by_cases hkey : k = j.job_id
                    · exact ⟨j, rfl, hkey.symm⟩
                    · simp only [lookupStatus, setStatus] at hk
                      rw [lookupA_upsert_ne _ _ _ _ hkey] at hk
                      obtain ⟨b, hb, _⟩ := inv.runImpBusy k st hk hrun
                      rw [hbusy] at hb
                      cases hb
                  · simpa only [setStatus, queueIds] using hnodup.2
                  · intro jq hjq
                    simp only [setStatus] at hjq
                    simp only [lookupStatus, setStatus]
                    by_cases hkey : jq.job_id = j.job_id
                    · rw [hkey, lookupA_upsert_self]; rfl
                    · rw [lookupA_upsert_ne _ _ _ _ hkey]
                      exact inv.inReg jq (hq ▸ List.mem_cons_of_mem j hjq)
                  · intro b hb
                    simp only [setStatus] at hb
                    cases hb
                    simp only [lookupStatus, setStatus]
                    rw [lookupA_upsert_self]; rfl
                  · intro b hb hmem
                    simp only [setStatus] at hb hmem
                    cases hb
                    exact hnodup.1 (by simpa [queueIds] using hmem)
  | spawn pid =>
      simp only [step] at hstep
      cases hbusy : s.busy with
      | none => rw [hbusy] at hstep; cases hstep
      | some j =>
          rw [hbusy] at hstep
          cases hstep
          refine ⟨?_, inv.nodup, ?_, ?_, ?_⟩
          · intro k st hk hr
            obtain ⟨b, hb, hbid⟩ := inv.runImpBusy k st hk hr
            rw [hbusy] at hb
            cases hb
            exact ⟨j, rfl, hbid⟩
          · intro jq hjq
            exact inv.inReg jq hjq
          · intro b hb
            cases hb
            exact inv.busyInReg j hbusy
          · intro b hb
            cases hb
            exact inv.busyNotQueued j hbusy
  | progressLine line =>
      simp only [step] at hstep
      cases hbusy : s.busy with
      | none => rw [hbusy] at hstep; cases hstep
      | some j =>
          cases hlk : lookupStatus s j.job_id with
          | none =>
              simp only [hbusy, hlk] at hstep
              cases hstep
          | some st0 =>
              simp only [hbusy, hlk] at hstep
              cases hstep
              refine ⟨?_, ?_, ?_, ?_, ?_⟩
              · intro k st hk hrun
                simp only [lookupStatus, setStatus] at hk ⊢
                by_cases hkey : k = j.job_id
                · exact ⟨j, hbusy, hkey.symm⟩
                · rw [lookupA_upsert_ne _ _ _ _ hkey] at hk
                  exact inv.runImpBusy k st hk hrun
              · simpa only [setStatus, queueIds] using inv.nodup
              · intro jq hjq
                simp only [setStatus] at hjq
                simp only [lookupStatus, setStatus]
                by_cases hkey : jq.job_id = j.job_id
                · rw [hkey, lookupA_upsert_self]; rfl
                · rw [lookupA_upsert_ne _ _ _ _ hkey]
                  exact inv.inReg jq hjq
              · intro b hb
                simp only [setStatus] at hb
                simp only [lookupStatus, setStatus]
                by_cases hkey : b.job_id = j.job_id
                · rw [hkey, lookupA_upsert_self]; rfl
                · rw [lookupA_upsert_ne _ _ _ _ hkey]
                  exact inv.busyInReg b hb
              · intro b hb hmem
                simp only [setStatus] at hb hmem
                exact inv.busyNotQueued b hb hmem
  | finish r =>
      simp only [step] at hstep
      cases hbusy : s.busy with
      | none => rw [hbusy] at hstep; cases hstep
      | some j =>
          by_cases hterm : isTerminal r.status = true
          · simp only [hbusy, hterm, reduceIte] at hstep
            cases hstep
            refine ⟨?_, ?_, ?_, ?_, ?_⟩
            · intro k st hk hrun
              simp only [lookupStatus, setStatus] at hk
              by_cases hkey : k = j.job_id
              · subst hkey
                rw [lookupA_upsert_self] at hk
                cases hk
                exact absurd hrun (isTerminal_ne_running hterm)
              · rw [lookupA_upsert_ne _ _ _ _ hkey] at hk
                obtain ⟨b, hb, hbid⟩ := inv.runImpBusy k st hk hrun
                rw [hbusy] at hb
                cases hb
                exact absurd hbid.symm hkey
            · simpa only [setStatus, queueIds] using inv.nodup
            · intro jq hjq
              simp only [setStatus] at hjq
              simp only [lookupStatus, setStatus]
              by_cases hkey : jq.job_id = j.job_id
              · rw [hkey, lookupA_upsert_self]; rfl
              · rw [lookupA_upsert_ne _ _ _ _ hkey]
                exact inv.inReg jq hjq
            · intro b hb
              simp only [setStatus] at hb
              cases hb
            · intro b hb hmem
              simp only [setStatus] at hb
              cases hb
          · simp only [hbusy, hterm, Bool.false_eq_true, reduceIte] at hstep
            cases hstep
  | cancelReq jid uid =>
      simp only [step] at hstep
      rcases cancel_resp_cases s jid uid with ⟨hresp, hst⟩ | ⟨hresp, hst⟩ |
        ⟨hresp, stF, hjs, hjq, hbz, hrj, hpm⟩
      · rcases hresp with hresp | hresp <;> rw [hresp] at hstep <;> cases hstep
      · rw [hresp] at hstep
        cases hstep
        rw [hst]
        refine ⟨?_, ?_, ?_, ?_, ?_⟩
        · intro k st hk hrun
          simp only [lookupStatus] at hk ⊢
          by_cases hkey : k = jid
          · subst hkey
            rw [lookupA_upsert_self] at hk
            cases hk
            cases hrun
          · rw [lookupA_upsert_ne _ _ _ _ hkey] at hk
            exact inv.runImpBusy k st hk hrun
        · have hsub : List.Sublist
              (queueIds (s.jobQueue.eraseP (fun j => j.job_id == jid && j.user_id == uid)))
              (queueIds s.jobQueue) :=
            (List.eraseP_sublist s.jobQueue).map Job.job_id
          exact inv.nodup.sublist hsub
        · intro jq hjq
          have hjq' : jq ∈ s.jobQueue := (List.eraseP_sublist s.jobQueue).subset hjq
          simp only [lookupStatus]
          by_cases hkey : jq.job_id = jid
          · rw [hkey, lookupA_upsert_self]; rfl
          · rw [lookupA_upsert_ne _ _ _ _ hkey]
            exact inv.inReg jq hjq'
        · intro b hb
          simp only [lookupStatus]
          by_cases hkey : b.job_id = jid
          · rw [hkey, lookupA_upsert_self]; rfl
          · rw [lookupA_upsert_ne _ _ _ _ hkey]
            exact inv.busyInReg b hb
        · intro b hb hmem
          have hsub : List.Sublist
              (queueIds (s.jobQueue.eraseP (fun j => j.job_id == jid && j.user_id == uid)))
              (queueIds s.jobQueue) :=
            (List.eraseP_sublist s.jobQueue).map Job.job_id
          exact inv.busyNotQueued b hb (hsub.subset hmem)
      · rw [hresp] at hstep
        cases hstep
        refine ⟨?_, ?_, ?_, ?_, ?_⟩
        · intro k st hk hrun
          rw [show lookupStatus (cancel s jid uid).1 k =
              lookupA (cancel s jid uid).1.jobStatus k from rfl, hjs] at hk
          by_cases hkey : k = jid
          · subst hkey
            rw [lookupA_upsert_self] at hk
            cases hk
            cases hrun
          · rw [lookupA_upsert_ne _ _ _ _ hkey, lookupA_upsert_ne _ _ _ _ hkey] at hk
            obtain ⟨b, hb, hbid⟩ := inv.runImpBusy k st hk hrun
            exact ⟨b, hbz ▸ hb, hbid⟩
        · rw [hjq]; exact inv.nodup
        · intro jq hjq'
          rw [hjq] at hjq'
          rw [show lookupStatus (cancel s jid uid).1 jq.job_id =
              lookupA (cancel s jid uid).1.jobStatus jq.job_id from rfl, hjs]
          by_cases hkey : jq.job_id = jid
          · rw [hkey, lookupA_upsert_self]; rfl
          · rw [lookupA_upsert_ne _ _ _ _ hkey, lookupA_upsert_ne _ _ _ _ hkey]
            exact inv.inReg jq hjq'
        · intro b hb
          rw [hbz] at hb
          rw [show lookupStatus (cancel s jid uid).1 b.job_id =
              lookupA (cancel s jid uid).1.jobStatus b.job_id from rfl, hjs]
          by_cases hkey : b.job_id = jid
          · rw [hkey, lookupA_upsert_self]; rfl
          · rw [lookupA_upsert_ne _ _ _ _ hkey, lookupA_upsert_ne _ _ _ _ hkey]
            exact inv.busyInReg b hb
        · intro b hb hmem
          rw [hbz] at hb
          rw [hjq] at hmem
          exact inv.busyNotQueued b hb hmem
  | stopReq tid uid =>
      simp only [step] at hstep
      rcases stop_resp_cases s tid uid with ⟨hresp, hst⟩ | ⟨hresp, hst⟩ |
        ⟨hresp, hjs, hjq, hbz, hrj, hpm⟩
      · rcases hresp with hresp | hresp <;> rw [hresp] at hstep <;> cases hstep
      · rw [hresp] at hstep
        cases hstep
        rw [hst]
        refine ⟨?_, ?_, ?_, ?_, ?_⟩
        · intro k st hk hrun
          simp only [lookupStatus] at hk ⊢
          by_cases hkey : k = tid
          · subst hkey
            rw [lookupA_upsert_self] at hk
            cases hk
            cases hrun
          · rw [lookupA_upsert_ne _ _ _ _ hkey] at hk
            exact inv.runImpBusy k st hk hrun
        · have hsub : List.Sublist
              (queueIds (s.jobQueue.eraseP (fun j => j.job_id == tid)))
              (queueIds s.jobQueue) :=
            (List.eraseP_sublist s.jobQueue).map Job.job_id
          exact inv.nodup.sublist hsub
        · intro jq hjq
          have hjq' : jq ∈ s.jobQueue := (List.eraseP_sublist s.jobQueue).subset hjq
          simp only [lookupStatus]
          by_cases hkey : jq.job_id = tid
          · rw [hkey, lookupA_upsert_self]; rfl
          · rw [lookupA_upsert_ne _ _ _ _ hkey]
            exact inv.inReg jq hjq'
        · intro b hb
          simp only [lookupStatus]
          by_cases hkey : b.job_id = tid
          · rw [hkey, lookupA_upsert_self]; rfl
          · rw [lookupA_upsert_ne _ _ _ _ hkey]
            exact inv.busyInReg b hb
        · intro b hb hmem
          have hsub : List.Sublist
              (queueIds (s.jobQueue.eraseP (fun j => j.job_id == tid)))
              (queueIds s.jobQueue) :=
            (List.eraseP_sublist s.jobQueue).map Job.job_id
          exact inv.busyNotQueued b hb (hsub.subset hmem)
      · rw [hresp] at hstep
        cases hstep
        refine ⟨?_, ?_, ?_, ?_, ?_⟩
        · intro k st hk hrun
          rw [show lookupStatus (stop_pipeline s tid uid).1 k =
              lookupA (stop_pipeline s tid uid).1.jobStatus k from rfl, hjs] at hk
          by_cases hkey : k = tid
          · subst hkey
            rw [lookupA_upsert_self] at hk
            cases hk
            cases hrun
          · rw [lookupA_upsert_ne _ _ _ _ hkey] at hk
            obtain ⟨b, hb, hbid⟩ := inv.runImpBusy k st hk hrun
            exact ⟨b, hbz ▸ hb, hbid⟩
        · rw [hjq]; exact inv.nodup
        · intro jq hjq'
          rw [hjq] at hjq'
          rw [show lookupStatus (stop_pipeline s tid uid).1 jq.job_id =
              lookupA (stop_pipeline s tid uid).1.jobStatus jq.job_id from rfl, hjs]
          by_cases hkey : jq.job_id = tid
          · rw [hkey, lookupA_upsert_self]; rfl
          · rw [lookupA_upsert_ne _ _ _ _ hkey]
            exact inv.inReg jq hjq'
        · intro b hb
          rw [hbz] at hb
          rw [show lookupStatus (stop_pipeline s tid uid).1 b.job_id =
              lookupA (stop_pipeline s tid uid).1.jobStatus b.job_id from rfl, hjs]
          by_cases hkey : b.job_id = tid
          · rw [hkey, lookupA_upsert_self]; rfl
          · rw [lookupA_upsert_ne _ _ _ _ hkey]
            exact inv.busyInReg b hb
        · intro b hb hmem
          rw [hbz] at hb
          rw [hjq] at hmem
          exact inv.busyNotQueued b hb hmem

/-- Every reachable state satisfies the invariant. -/
theorem inv_reach {s : SchedState} (h : Reach s) : Inv s := by
  induction h with
  | init => exact inv_init
  | next e _ hstep ih => exact inv_step ih hstep

/-! ## Claim C5: single-flight -/

/-- C5: at most one job is `running` system-wide.  In every reachable
scheduler state, any two registered records with status `running` belong to
the same job id: the single worker coroutine marks a job running only when it
is idle, and drives it to a terminal record before the loop head can dequeue
again. -/
theorem c5_single_flight (s : SchedState) (h : Reach s) (a b : String)
    (ra rb : JobRec) (ha : lookupStatus s a = some ra) (hra : ra.status = .running)
    (hb : lookupStatus s b = some rb) (hrb : rb.status = .running) : a = b := by
  obtain ⟨j1, hj1, hid1⟩ := (inv_reach h).runImpBusy a ra ha hra
  obtain ⟨j2, hj2, hid2⟩ := (inv_reach h).runImpBusy b rb hb hrb
  rw [hj1] at hj2
  cases hj2
  exact hid1.symm.trans hid2

/-- The scheduler state after submitting job `j1` for user `u1`. -/
def sQueued : SchedState :=
  { jobStatus := [("j1", queuedRec "u1")], jobQueue := [⟨"j1", "u1"⟩],
    runningJob := none, processMap := [], busy := none }

/-- The scheduler state after the worker picked `j1`. -/
def sRunning : SchedState :=
  { jobStatus := [("j1", runningStartRec "u1")], jobQueue := [],
    runningJob := some ⟨"j1", "u1"⟩, processMap := [], busy := some ⟨"j1", "u1"⟩ }

theorem reach_sQueued : Reach sQueued :=
  Reach.next (Ev.submit ⟨"j1", "u1"⟩) Reach.init (by decide)

theorem reach_sRunning : Reach sRunning :=
  Reach.next Ev.workerPick reach_sQueued (by decide)

/-- C5 (witness): the single-flight theorem applied in a reachable state with
one running job. -/
theorem c5_single_flight_witness :
    (Reach sRunning ∧ lookupStatus sRunning "j1" = some (runningStartRec "u1") ∧
      (runningStartRec "u1").status = JobStatus.running) ∧ "j1" = "j1" :=
  ⟨⟨reach_sRunning, by decide, by decide⟩,
   c5_single_flight sRunning reach_sRunning "j1" "j1" (runningStartRec "u1")
     (runningStartRec "u1") (by decide) (by decide) (by decide) (by decide)⟩

/-! ## Claim C6: admission control -/

/-- `_user_has_active_job` (api_server.py 956-969): running job of the user,
else first queued job of the user, else any registered record with status
`queued`/`running` for the user. -/
def _user_has_active_job (s : SchedState) (user_id : String) : Option String :=
  let fromQueueOrStatus : Option String :=
    match s.jobQueue.find? (fun j => j.user_id == user_id) with
    | some j => some j.job_id
    | none =>
        match s.jobStatus.find? (fun p =>
            (p.2.status == JobStatus.queued || p.2.status == JobStatus.running) &&
            p.2.user_id == some user_id) with
        | some p => some p.1
        | none => none
  match s.runningJob with
  | some j => if j.user_id == user_id then some j.job_id else fromQueueOrStatus
  | none => fromQueueOrStatus

/-- Responses of the `/process` submission path. -/
inductive SubmitResp
  | rejected (active_job_id : String)
  | queuedOk (job_id : String)
  deriving DecidableEq, Repr

/-- The admission-and-enqueue slice of `/process` (api_server.py 2140-2146
and 2246-2261): reject naming the active job when `_user_has_active_job`
finds one, otherwise register the new job as `queued` and append it to the
queue. -/
def process (s : SchedState) (user_id new_job_id : String) : SchedState × SubmitResp :=
  match _user_has_active_job s user_id with
  | some existing => (s, .rejected existing)
  | none =>
      ({ setStatus s new_job_id (queuedRec user_id) with
         jobQueue := s.jobQueue ++ [⟨new_job_id, user_id⟩] }, .queuedOk new_job_id)

/-- `jid` is an active job of `user_id`: the user's running job, or one of
the user's queued jobs, or a registered record of the user with status
`queued`/`running`. -/
def ActiveFor (s : SchedState) (user_id jid : String) : Prop :=
  (∃ j : Job, s.runningJob = some j ∧ j.user_id = user_id ∧ j.job_id = jid) ∨
  (∃ j : Job, j ∈ s.jobQueue ∧ j.user_id = user_id ∧ j.job_id = jid) ∨
  (∃ st : JobRec, (jid, st) ∈ s.jobStatus ∧ st.user_id = some user_id ∧
    (st.status = JobStatus.queued ∨ st.status = JobStatus.running))

/-- C6: while a submitter has a registered job with status `queued` or
`running`, any further submission is rejected with a response naming one of
that submitter's active jobs, and the scheduler state is unchanged (no job
created, nothing enqueued). -/
theorem c6_admission_exclusive (s : SchedState) (uid newId jid : String) (st : JobRec)
    (hmem : (jid, st) ∈ s.jobStatus) (huser : st.user_id = some uid)
    (hact : st.status = JobStatus.queued ∨ st.status = JobStatus.running) :
    ∃ e, process s uid newId = (s, SubmitResp.rejected e) ∧ ActiveFor s uid e := by
  have hfound : ∃ e, _user_has_active_job s uid = some e ∧ ActiveFor s uid e := by
    unfold _user_has_active_job
    cases hrj : s.runningJob with
    | some j =>
        by_cases hju : j.user_id = uid
        · refine ⟨j.job_id, ?_, Or.inl ⟨j, hrj, hju, rfl⟩⟩
          simp [hju]
        · have hju' : (j.user_id == uid) = false := by simpa using hju
          simp only [hju', Bool.false_eq_true, reduceIte]
          cases hq : s.jobQueue.find? (fun j => j.user_id == uid) with
          | some jq =>
              refine ⟨jq.job_id, rfl, Or.inr (Or.inl ⟨jq, List.mem_of_find?_eq_some hq, ?_, rfl⟩)⟩
              simpa using List.find?_some hq
          | none =>
              have hsome : (s.jobStatus.find? (fun p =>
                  (p.2.status == JobStatus.queued || p.2.status == JobStatus.running) &&
                  p.2.user_id == some uid)).isSome = true := by
                refine List.find?_isSome.mpr ⟨(jid, st), hmem, ?_⟩
                rcases hact with hact | hact <;> simp [hact, huser]
              cases hp : s.jobStatus.find? (fun p =>
                  (p.2.status == JobStatus.queued || p.2.status == JobStatus.running) &&
                  p.2.user_id == some uid) with
              | none => rw [hp] at hsome; cases hsome
              | some p =>
                  have hpred := List.find?_some hp
                  have hpmem := List.mem_of_find?_eq_some hp
                  simp only [Bool.and_eq_true, Bool.or_eq_true, beq_iff_eq] at hpred
                  refine ⟨p.1, rfl, Or.inr (Or.inr ⟨p.2, ?_, hpred.2, hpred.1⟩)⟩
                  simpa using hpmem
    | none =>
        cases hq : s.jobQueue.find? (fun j => j.user_id == uid) with
        | some jq =>
            refine ⟨jq.job_id, rfl, Or.inr (Or.inl ⟨jq, List.mem_of_find?_eq_some hq, ?_, rfl⟩)⟩
            simpa using List.find?_some hq
        | none =>
            have hsome : (s.jobStatus.find? (fun p =>
                (p.2.status == JobStatus.queued || p.2.status == JobStatus.running) &&
                p.2.user_id == some uid)).isSome = true := by
              refine List.find?_isSome.mpr ⟨(jid, st), hmem, ?_⟩
              rcases hact with hact | hact <;> simp [hact, huser]
            cases hp : s.jobStatus.find? (fun p =>
                (p.2.status == JobStatus.queued || p.2.status == JobStatus.running) &&
                p.2.user_id == some uid) with
            | none => rw [hp] at hsome; cases hsome
            | some p =>
                have hpred := List.find?_some hp
                have hpmem := List.mem_of_find?_eq_some hp
                simp only [Bool.and_eq_true, Bool.or_eq_true, beq_iff_eq] at hpred
                refine ⟨p.1, rfl, Or.inr (Or.inr ⟨p.2, ?_, hpred.2, hpred.1⟩)⟩
                simpa using hpmem
  obtain ⟨e, he, hae⟩ := hfound
  refine ⟨e, ?_, hae⟩
  unfold process
  rw [he]

/-- C6 (witness): a second submission while `j1` is queued for the same user
is rejected and creates nothing. -/
theorem c6_admission_exclusive_witness :
    (("j1", queuedRec "u1") ∈ sQueued.jobStatus ∧
      (queuedRec "u1").user_id = some "u1" ∧
      (queuedRec "u1").status = JobStatus.queued) ∧
    (∃ e, process sQueued "u1" "j2" = (sQueued, SubmitResp.rejected e) ∧
      ActiveFor sQueued "u1" e) :=
  ⟨⟨by decide, by decide, by decide⟩,
   c6_admission_exclusive sQueued "u1" "j2" "j1" (queuedRec "u1") (by decide)
     (by decide) (Or.inl (by decide))⟩

/-! ## Claim C10: unknown task id on the two status endpoints -/

/-- Responses of the `/progress` endpoint: HTTP 404 or the raw record. -/
inductive ProgressResp
  | notFound404
  | ok (st : JobRec)
  deriving DecidableEq, Repr

/-- The `/progress` endpoint (api_server.py 514-519). -/
def progress (s : SchedState) (job_id : String) : ProgressResp :=
  match lookupStatus s job_id with
  | none => .notFound404
  | some st => .ok st

/-- Backend→frontend status mapping of `/api/pipeline/status`
(api_server.py 551-557). -/
def status_map (st : JobStatus) : String :=
  match st with
  | .queued => "idle"
  | .running => "processing"
  | .succeeded => "completed"
  | .failed => "error"
  | .cancelled => "error"

/-- The `data` payload of a `/api/pipeline/status` response (the fields the
claims are about; `videoId` and the timestamps are omitted). -/
structure PipelineStatusData where
  id : String
  status : String
  progress : Nat
  message : String
  result : Option OutData
  resultError : Option String
  deriving DecidableEq, Repr

/-- The `/api/pipeline/status/{taskId}` endpoint (api_server.py 522-593):
always a success-shaped (`success = true`) response; an unknown task id
yields status `"error"`, progress 0 and the cleared/interrupted message
rather than a 404. -/
def get_pipeline_status (s : SchedState) (taskId : String) : Bool × PipelineStatusData :=
  match lookupStatus s taskId with
  | none =>
      (true, { id := taskId, status := "error", progress := 0,
               message := "任务已被清除或中断", result := none, resultError := none })
  | some st =>
      let frontend := status_map st.status
      let base : PipelineStatusData :=
        { id := taskId, status := frontend, progress := st.progress,
          message := st.step.getD "", result := st.data, resultError := none }
      if frontend = "error" then
        match st.error with
        | some err =>
            (true, { base with
              message := err
              resultError := some ((st.error_details).getD err) })
        | none => (true, base)
      else (true, base)

/-- C10: for a task id absent from the registry, `/api/pipeline/status`
returns a success-shaped response whose task status is `"error"` with
progress 0 and the cleared/interrupted message, while `/progress` returns
HTTP 404. -/
theorem c10_unknown_task_not_404 (s : SchedState) (tid : String)
    (h : lookupStatus s tid = none) :
    get_pipeline_status s tid =
      (true, { id := tid, status := "error", progress := 0,
               message := "任务已被清除或中断", result := none, resultError := none }) ∧
    progress s tid = ProgressResp.notFound404 := by
  unfold get_pipeline_status progress
  rw [h]
  exact ⟨rfl, rfl⟩

/-- C10 (witness): the two endpoints on an unregistered task id. -/
theorem c10_unknown_task_not_404_witness :
    lookupStatus initState "zz" = none ∧
    (get_pipeline_status initState "zz" =
      (true, { id := "zz", status := "error", progress := 0,
               message := "任务已被清除或中断", result := none, resultError := none }) ∧
     progress initState "zz" = ProgressResp.notFound404) :=
  ⟨by decide, c10_unknown_task_not_404 initState "zz" (by decide)⟩

/-! ## Claim C7: strict FIFO -/

/-- `A` occupies a strictly earlier queue position than `B`. -/
def precedes (A B : String) : List Job → Prop
  | [] => False
  | x :: t => (x.job_id = A ∧ B ∈ queueIds t) ∨ precedes A B t

theorem precedes_mem_right {A B : String} {q : List Job}
    (h : precedes A B q) : B ∈ queueIds q := by
  induction q with
  | nil => exact h.elim
  | cons x t ih =>
      rcases h with ⟨_, hB⟩ | h
      · exact List.mem_cons_of_mem _ hB
      · exact List.mem_cons_of_mem _ (ih h)

theorem precedes_append {A B : String} {q l : List Job}
    (h : precedes A B q) : precedes A B (q ++ l) := by
  induction q with
  | nil => exact h.elim
  | cons x t ih =>
      rcases h with ⟨hA, hB⟩ | h
      · exact Or.inl ⟨hA, by simpa [queueIds] using Or.inl hB⟩
      · exact Or.inr (ih h)

theorem precedes_tail {A B : String} {x : Job} {t : List Job}
    (h : precedes A B (x :: t)) (hx : x.job_id ≠ A) : precedes A B t := by
  rcases h with ⟨hA, _⟩ | h
  · exact absurd hA hx
  · exact h

theorem precedes_head_ne {A B : String} {x : Job} {t : List Job}
    (hnd : (queueIds (x :: t)).Nodup) (h : precedes A B (x :: t)) :
    x.job_id ≠ B := by
  simp only [queueIds, List.map_cons, List.nodup_cons] at hnd
  intro hxB
  rcases h with ⟨_, hB⟩ | h
  · exact hnd.1 (hxB ▸ hB)
  · exact hnd.1 (hxB ▸ precedes_mem_right h)

theorem mem_queueIds_eraseP {q : List Job} {p : Job → Bool} {B : String}
    (h : B ∈ queueIds q) (hp : ∀ x, p x = true → x.job_id ≠ B) :
    B ∈ queueIds (q.eraseP p) := by
  induction q with
  | nil => simpa [queueIds] using h
  | cons x t ih =>
      cases hpx : p x with
      | true =>
          rw [List.eraseP_cons_of_pos hpx]
          rcases mem_queueIds.mp h with ⟨j, hj, hid⟩
          rcases List.mem_cons.mp hj with rfl | hjt
          · exact absurd hid (hp _ hpx)
          · exact mem_queueIds.mpr ⟨j, hjt, hid⟩
      | false =>
          rw [List.eraseP_cons_of_neg (by simp [hpx])]
          rcases mem_queueIds.mp h with ⟨j, hj, hid⟩
          rcases List.mem_cons.mp hj with rfl | hjt
          · exact mem_queueIds.mpr ⟨j, List.mem_cons_self j _, hid⟩
          · exact List.mem_cons_of_mem _ (ih (mem_queueIds.mpr ⟨j, hjt, hid⟩))

theorem precedes_eraseP {A B : String} {q : List Job} {p : Job → Bool}
    (h : precedes A B q) (hp : ∀ x, p x = true → x.job_id ≠ A ∧ x.job_id ≠ B) :
    precedes A B (q.eraseP p) := by
  induction q with
  | nil => exact h.elim
  | cons x t ih =>
      cases hpx : p x with
      | true =>
          rw [List.eraseP_cons_of_pos hpx]
          rcases h with ⟨hA, _⟩ | h
          · exact absurd hA (hp _ hpx).1
          · exact h
      | false =>
          rw [List.eraseP_cons_of_neg (by simp [hpx])]
          rcases h with ⟨hA, hB⟩ | h
          · exact Or.inl ⟨hA, mem_queueIds_eraseP hB (fun x hx => (hp x hx).2)⟩
          · exact Or.inr (ih h)

/-- An execution: `σ` is the state trajectory, `ε n` the event fired between
`σ n` and `σ (n+1)`. -/
def IsExec (σ : Nat → SchedState) (ε : Nat → Ev) : Prop :=
  ∀ n, step (σ n) (ε n) = some (σ (n + 1))

/-- The worker dequeues (starts) job `A` at instant `n`. -/
def StartsAt (σ : Nat → SchedState) (ε : Nat → Ev) (n : Nat) (A : String) : Prop :=
  ε n = Ev.workerPick ∧ ((σ n).jobQueue.head?).map Job.job_id = some A

theorem reach_exec {σ : Nat → SchedState} {ε : Nat → Ev}
    (h0 : Reach (σ 0)) (hexec : IsExec σ ε) : ∀ n, Reach (σ n) := by
  intro n
  induction n with
  | zero => exact h0
  | succ n ih => exact Reach.next (ε n) ih (hexec n)

/-- One scheduler step preserves queue precedence of `A` before `B`, as long
as the event is not a cancellation/stop of `A` or `B` and does not dequeue
`A`. -/
theorem precedes_step {s s' : SchedState} {e : Ev} {A B : String}
    (inv : Inv s) (hstep : step s e = some s')
    (hA : ∀ u, e ≠ Ev.cancelReq A u ∧ e ≠ Ev.stopReq A u)
    (hB : ∀ u, e ≠ Ev.cancelReq B u ∧ e ≠ Ev.stopReq B u)
    (hprec : precedes A B s.jobQueue)
    (hnotA : ¬(e = Ev.workerPick ∧ (s.jobQueue.head?).map Job.job_id = some A)) :
    precedes A B s'.jobQueue := by
  cases e with
  | submit j =>
      simp only [step] at hstep
      cases hlk : lookupStatus s j.job_id with
      | some st => rw [hlk] at hstep; cases hstep
      | none =>
          rw [hlk] at hstep
          cases hstep
          exact precedes_append hprec
  | workerPick =>
      simp only [step] at hstep
      cases hbusy : s.busy with
      | some b => rw [hbusy] at hstep; cases hstep
      | none =>
          rw [hbusy] at hstep
          cases hrj : s.runningJob with
          | some b => rw [hrj] at hstep; cases hstep
          | none =>
              rw [hrj] at hstep
              cases hq : s.jobQueue with
              | nil => rw [hq] at hstep; cases hstep
              | cons j rest =>
                  rw [hq] at hstep
                  cases hstep
                  rw [hq] at hprec
                  have hjA : j.job_id ≠ A := by
                    intro hid
                    exact hnotA ⟨rfl, by simp [hq, hid]⟩
                  exact precedes_tail hprec hjA
  | spawn pid =>
      simp only [step] at hstep
      cases hbusy : s.busy with
      | none => rw [hbusy] at hstep; cases hstep
      | some j =>
          rw [hbusy] at hstep
          cases hstep
          exact hprec
  | progressLine line =>
      simp only [step] at hstep
      cases hbusy : s.busy with
      | none => rw [hbusy] at hstep; cases hstep
      | some j =>
          cases hlk : lookupStatus s j.job_id with
          | none =>
              simp only [hbusy, hlk] at hstep
              cases hstep
          | some st0 =>
              simp only [hbusy, hlk] at hstep
              cases hstep
              exact hprec
  | finish r =>
      simp only [step] at hstep
      cases hbusy : s.busy with
      | none => rw [hbusy] at hstep; cases hstep
      | some j =>
          by_cases hterm : isTerminal r.status = true
          · simp only [hbusy, hterm, reduceIte] at hstep
            cases hstep
            exact hprec
          · simp only [hbusy, hterm, Bool.false_eq_true, reduceIte] at hstep
            cases hstep
  | cancelReq jid uid =>
      simp only [step] at hstep
      have hjidA : jid ≠ A := fun h => ((hA uid).1 (by rw [h]))
      have hjidB : jid ≠ B := fun h => ((hB uid).1 (by rw [h]))
      rcases cancel_resp_cases s jid uid with ⟨hresp, hst⟩ | ⟨hresp, hst⟩ |
        ⟨hresp, stF, hjs, hjq, hbz, hrj, hpm⟩
      · rcases hresp with hresp | hresp <;> rw [hresp] at hstep <;> cases hstep
      · rw [hresp] at hstep
        cases hstep
        rw [hst]
        refine precedes_eraseP hprec ?_
        intro x hx
        simp only [Bool.and_eq_true, beq_iff_eq] at hx
        exact ⟨hx.1 ▸ hjidA, hx.1 ▸ hjidB⟩
      · rw [hresp] at hstep
        cases hstep
        rw [hjq]
        exact hprec
  | stopReq tid uid =>
      simp only [step] at hstep
      have htidA : tid ≠ A := fun h => ((hA uid).2 (by rw [h]))
      have htidB : tid ≠ B := fun h => ((hB uid).2 (by rw [h]))
      rcases stop_resp_cases s tid uid with ⟨hresp, hst⟩ | ⟨hresp, hst⟩ |
        ⟨hresp, hjs, hjq, hbz, hrj, hpm⟩
      · rcases hresp with hresp | hresp <;> rw [hresp] at hstep <;> cases hstep
      · rw [hresp] at hstep
        cases hstep
        rw [hst]
        refine precedes_eraseP hprec ?_
        intro x hx
        simp only [beq_iff_eq] at hx
        exact ⟨hx ▸ htidA, hx ▸ htidB⟩
      · rw [hresp] at hstep
        cases hstep
        rw [hjq]
        exact hprec

/-- A state in which `A` precedes `B` cannot dequeue `B`. -/
theorem precedes_not_head {s : SchedState} {A B : String}
    (inv : Inv s) (hprec : precedes A B s.jobQueue) :
    ¬ ((s.jobQueue.head?).map Job.job_id = some B) := by
  cases hq : s.jobQueue with
  | nil => rw [hq] at hprec; exact hprec.elim
  | cons x t =>
      intro hh
      rw [hq] at hprec
      have hnd := inv.nodup
      rw [hq] at hnd
      have := precedes_head_ne hnd hprec
      exact this (Option.some.inj hh)

/-- Queue precedence persists from instant `m` to instant `n` of an execution
as long as `A` and `B` are not cancelled and `A` is not started. -/
theorem precedes_persists (σ : Nat → SchedState) (ε : Nat → Ev) (A B : String)
    (hexec : IsExec σ ε) (hreach : Reach (σ 0)) (m n : Nat) (hmn : m ≤ n)
    (hprec : precedes A B (σ m).jobQueue)
    (hAfree : ∀ k, m ≤ k → k < n → ∀ u, ε k ≠ Ev.cancelReq A u ∧ ε k ≠ Ev.stopReq A u)
    (hBfree : ∀ k, m ≤ k → k < n → ∀ u, ε k ≠ Ev.cancelReq B u ∧ ε k ≠ Ev.stopReq B u)
    (hnostart : ∀ k, m ≤ k → k < n → ¬ StartsAt σ ε k A) :
    precedes A B (σ n).jobQueue := by
  induction n with
  | zero =>
      have : m = 0 := Nat.le_zero.mp hmn
      exact this ▸ hprec
  | succ n ih =>
      by_cases hm : m = n + 1
      · exact hm ▸ hprec
      · have hmn' : m ≤ n := Nat.lt_succ_iff.mp (Nat.lt_of_le_of_ne hmn hm)
        have hp := ih hmn'
          (fun k h1 h2 => hAfree k h1 (Nat.lt_succ_of_lt h2))
          (fun k h1 h2 => hBfree k h1 (Nat.lt_succ_of_lt h2))
          (fun k h1 h2 => hnostart k h1 (Nat.lt_succ_of_lt h2))
        exact precedes_step (inv_reach (reach_exec hreach hexec n)) (hexec n)
          (hAfree n hmn' (Nat.lt_succ_self n))
          (hBfree n hmn' (Nat.lt_succ_self n))
          hp
          (fun hh => hnostart n hmn' (Nat.lt_succ_self n) ⟨hh.1, hh.2⟩)

/-- C7: strict FIFO.  In any execution, if at some instant `m` job `A` sits
strictly ahead of job `B` in the queue, and neither is cancelled/stopped
while queued, then whenever the worker starts `B` (at instant `n ≥ m`) it
already started `A` at some earlier instant in `[m, n)`.  Dequeuing is from
the head only, with no priority. -/
theorem c7_fifo_start_order (σ : Nat → SchedState) (ε : Nat → Ev) (A B : String)
    (hexec : IsExec σ ε) (hreach : Reach (σ 0)) (m n : Nat) (hmn : m ≤ n)
    (hprec : precedes A B (σ m).jobQueue)
    (hAfree : ∀ k, m ≤ k → k < n → ∀ u, ε k ≠ Ev.cancelReq A u ∧ ε k ≠ Ev.stopReq A u)
    (hBfree : ∀ k, m ≤ k → k < n → ∀ u, ε k ≠ Ev.cancelReq B u ∧ ε k ≠ Ev.stopReq B u)
    (hBstart : StartsAt σ ε n B) :
    ∃ k, m ≤ k ∧ k < n ∧ StartsAt σ ε k A := by
  by_contra hno
  push_neg at hno
  have hnostart : ∀ k, m ≤ k → k < n → ¬ StartsAt σ ε k A := fun k h1 h2 hs =>
    (hno k h1 h2) hs
  have hp := precedes_persists σ ε A B hexec hreach m n hmn hprec hAfree hBfree hnostart
  exact precedes_not_head (inv_reach (reach_exec hreach hexec n)) hp hBstart.2

/-- State with `j1` (user u1) and `j2` (user u2) queued in arrival order. -/
def c7s2 : SchedState :=
  { jobStatus := [("j1", queuedRec "u1"), ("j2", queuedRec "u2")],
    jobQueue := [⟨"j1", "u1"⟩, ⟨"j2", "u2"⟩], runningJob := none,
    processMap := [], busy := none }

/-- State with `j1` running and `j2` still queued. -/
def c7s3 : SchedState :=
  { jobStatus := [("j1", runningStartRec "u1"), ("j2", queuedRec "u2")],
    jobQueue := [⟨"j2", "u2"⟩], runningJob := some ⟨"j1", "u1"⟩,
    processMap := [], busy := some ⟨"j1", "u1"⟩ }

/-- State after `j1` finished (cancelled terminal record), `j2` still queued. -/
def c7s4 : SchedState :=
  { jobStatus := [("j1", cancelledRec "u1"), ("j2", queuedRec "u2")],
    jobQueue := [⟨"j2", "u2"⟩], runningJob := none, processMap := [],
    busy := none }

/-- State with `j2` running, nothing queued. -/
def c7s5 : SchedState :=
  { jobStatus := [("j1", cancelledRec "u1"), ("j2", runningStartRec "u2")],
    jobQueue := [], runningJob := some ⟨"j2", "u2"⟩, processMap := [],
    busy := some ⟨"j2", "u2"⟩ }

/-- A concrete infinite execution: submit `j1`, submit `j2`, start `j1`,
finish `j1`, start `j2`, then repeat an (idempotent) cancel of the already
terminal `j1` forever. -/
def c7sigma : Nat → SchedState
  | 0 => initState
  | 1 => sQueued
  | 2 => c7s2
  | 3 => c7s3
  | 4 => c7s4
  | _ + 5 => c7s5

/-- The events of the concrete execution. -/
def c7eps : Nat → Ev
  | 0 => .submit ⟨"j1", "u1"⟩
  | 1 => .submit ⟨"j2", "u2"⟩
  | 2 => .workerPick
  | 3 => .finish (cancelledRec "u1")
  | 4 => .workerPick
  | _ + 5 => .cancelReq "j1" "u1"

theorem c7exec : IsExec c7sigma c7eps := by
  intro n
  match n with
  | 0 => exact (by decide)
  | 1 => exact (by decide)
  | 2 => exact (by decide)
  | 3 => exact (by decide)
  | 4 => exact (by decide)
  | k + 5 =>
      exact (by decide : step c7s5 (Ev.cancelReq "j1" "u1") = some c7s5)

/-- C7 (witness): in the concrete execution, `j1` precedes `j2` at instant 2,
the worker starts `j2` at instant 4, and the FIFO theorem yields the instant
in `[2, 4)` at which `j1` was started. -/
theorem c7_fifo_start_order_witness :
    (precedes "j1" "j2" (c7sigma 2).jobQueue ∧ StartsAt c7sigma c7eps 4 "j2") ∧
    (∃ k, 2 ≤ k ∧ k < 4 ∧ StartsAt c7sigma c7eps k "j1") :=
  ⟨⟨Or.inl ⟨rfl, by simp [c7s2, queueIds]⟩, ⟨rfl, by decide⟩⟩,
   c7_fifo_start_order c7sigma c7eps "j1" "j2" c7exec Reach.init 2 4 (by omega)
     (Or.inl ⟨rfl, by simp [c7s2, queueIds]⟩)
     (by
       intro k h1 h2 u
       have hk : k = 2 ∨ k = 3 := by omega
       rcases hk with rfl | rfl
       · exact ⟨fun h => Ev.noConfusion h, fun h => Ev.noConfusion h⟩
       · exact ⟨fun h => Ev.noConfusion h, fun h => Ev.noConfusion h⟩)
     (by
       intro k h1 h2 u
       have hk : k = 2 ∨ k = 3 := by omega
       rcases hk with rfl | rfl
       · exact ⟨fun h => Ev.noConfusion h, fun h => Ev.noConfusion h⟩
       · exact ⟨fun h => Ev.noConfusion h, fun h => Ev.noConfusion h⟩)
     ⟨rfl, by decide⟩⟩

/-! ## Claim C8: cancel-while-queued is side-effect-free -/

/-- On the queued path, `/cancel` performs no OS side effect, and the queue
really contained a requester-owned entry for the job. -/
theorem cancel_okQueued_extra (s : SchedState) (jid uid : String)
    (h : (cancel s jid uid).2.1 = CancelResp.okQueued) :
    (cancel s jid uid).2.2 = [] ∧
    ∃ x, x ∈ s.jobQueue ∧ x.job_id = jid ∧ x.user_id = uid := by
  unfold cancel at h ⊢
  cases hlk : lookupStatus s jid with
  | none =>
      rw [hlk] at h
      cases h
  | some st =>
      simp only [hlk] at h ⊢
      cases hof : (match ownerOf st with | some o => o != uid | none => false) with
      | true =>
          simp only [hof, reduceIte] at h
          cases h
      | false =>
          simp only [hof, Bool.false_eq_true, reduceIte] at h ⊢
          by_cases hq : (s.jobQueue.find?
              (fun j => j.job_id == jid && j.user_id == uid)).isSome = true
          · simp only [hq, reduceIte]
            cases hfind : s.jobQueue.find? (fun j => j.job_id == jid && j.user_id == uid) with
            | none => rw [hfind] at hq; cases hq
            | some x =>
                have hpred := List.find?_some hfind
                simp only [Bool.and_eq_true, beq_iff_eq] at hpred
                exact ⟨trivial, x, List.mem_of_find?_eq_some hfind, hpred.1, hpred.2⟩
          · simp only [hq, Bool.false_eq_true, reduceIte] at h
            cases h

/-- With distinct queue ids, erasing the (unique) entry with id `jid` leaves
no entry with that id. -/
theorem not_mem_ids_eraseP {q : List Job} {p : Job → Bool} {jid : String}
    (hnd : (queueIds q).Nodup)
    (hfound : ∃ x, x ∈ q ∧ p x = true)
    (hp : ∀ x, p x = true → x.job_id = jid) :
    jid ∉ queueIds (q.eraseP p) := by
  induction q with
  | nil => rcases hfound with ⟨x, hx, _⟩; cases hx
  | cons x t ih =>
      simp only [queueIds, List.map_cons, List.nodup_cons] at hnd
      cases hpx : p x with
      | true =>
          rw [List.eraseP_cons_of_pos hpx]
          rw [← hp x hpx]
          exact hnd.1
      | false =>
          rw [List.eraseP_cons_of_neg (by simp [hpx])]
          have hfound' : ∃ y, y ∈ t ∧ p y = true := by
            rcases hfound with ⟨y, hy, hpy⟩
            rcases List.mem_cons.mp hy with rfl | hyt
            · rw [hpx] at hpy; cases hpy
            · exact ⟨y, hyt, hpy⟩
          intro hmem
          rcases mem_queueIds.mp hmem with ⟨j, hj, hid⟩
          rcases List.mem_cons.mp hj with rfl | hjt
          · rcases hfound' with ⟨y, hy, hpy⟩
            exact hnd.1 (hid ▸ (hp y hpy) ▸ mem_queueIds.mpr ⟨y, hy, rfl⟩)
          · exact ih hnd.2 hfound' (mem_queueIds.mpr ⟨j, hjt, hid⟩)

/-- Job `jid` is permanently out of the scheduler's way: not queued, not
being executed, and still registered (so a fresh submission can never reuse
its id). -/
def Gone (jid : String) (t : SchedState) : Prop :=
  jid ∉ queueIds t.jobQueue ∧ (∀ j, t.busy = some j → j.job_id ≠ jid) ∧
  (lookupStatus t jid).isSome = true

theorem gone_step {s s' : SchedState} {e : Ev} {jid : String}
    (hg : Gone jid s) (hstep : step s e = some s') : Gone jid s' := by
  obtain ⟨hq, hbz, hlk⟩ := hg
  cases e with
  | submit j =>
      simp only [step] at hstep
      cases hfresh : lookupStatus s j.job_id with
      | some st => rw [hfresh] at hstep; cases hstep
      | none =>
          rw [hfresh] at hstep
          cases hstep
          have hne : j.job_id ≠ jid := by
            intro heq
            rw [heq] at hfresh
            rw [hfresh] at hlk
            cases hlk
          refine ⟨?_, ?_, ?_⟩
          · intro hmem
            simp only [setStatus, queueIds, List.map_append, List.map_cons,
              List.map_nil] at hmem
            rcases List.mem_append.mp hmem with h1 | h1
            · exact hq h1
            · exact hne (List.mem_singleton.mp h1).symm
          · intro b hb
            exact hbz b hb
          · simp only [lookupStatus, setStatus]
            rw [lookupA_upsert_ne _ _ _ _ (fun h => hne h.symm)]
            exact hlk
  | workerPick =>
      simp only [step] at hstep
      cases hbusy : s.busy with
      | some b => rw [hbusy] at hstep; cases hstep
      | none =>
          rw [hbusy] at hstep
          cases hrj : s.runningJob with
          | some b => rw [hrj] at hstep; cases hstep
          | none =>
              rw [hrj] at hstep
              cases hq' : s.jobQueue with
              | nil => rw [hq'] at hstep; cases hstep
              | cons j rest =>
                  rw [hq'] at hstep
                  cases hstep
                  have hjne : j.job_id ≠ jid := by
                    intro heq
                    apply hq
                    rw [hq']
                    exact heq ▸ mem_queueIds.mpr ⟨j, List.mem_cons_self j rest, rfl⟩
                  refine ⟨?_, ?_, ?_⟩
                  · intro hmem
                    apply hq
                    rw [hq']
                    simp only [setStatus, queueIds, List.map_cons] at hmem ⊢
                    exact List.mem_cons_of_mem _ hmem
                  · intro b hb
                    cases hb
                    exact hjne
                  · simp only [lookupStatus, setStatus]
                    rw [lookupA_upsert_ne _ _ _ _ (fun h => hjne h.symm)]
                    exact hlk
  | spawn pid =>
      simp only [step] at hstep
      cases hbusy : s.busy with
      | none => rw [hbusy] at hstep; cases hstep
      | some j =>
          rw [hbusy] at hstep
          cases hstep
          exact ⟨hq, fun b hb => by cases hb; exact hbz j hbusy, hlk⟩
  | progressLine line =>
      simp only [step] at hstep
      cases hbusy : s.busy with
      | none => rw [hbusy] at hstep; cases hstep
      | some j =>
          cases hlk2 : lookupStatus s j.job_id with
          | none =>
              simp only [hbusy, hlk2] at hstep
              cases hstep
          | some st0 =>
              simp only [hbusy, hlk2] at hstep
              cases hstep
              have hjne := hbz j hbusy
              refine ⟨hq, fun b hb => hbz b hb, ?_⟩
              simp only [lookupStatus, setStatus]
              rw [lookupA_upsert_ne _ _ _ _ (fun h => hjne h.symm)]
              exact hlk
  | finish r =>
      simp only [step] at hstep
      cases hbusy : s.busy with
      | none => rw [hbusy] at hstep; cases hstep
      | some j =>
          by_cases hterm : isTerminal r.status = true
          · simp only [hbusy, hterm, reduceIte] at hstep
            cases hstep
            have hjne := hbz j hbusy
            refine ⟨hq, ?_, ?_⟩
            · intro b hb
              cases hb
            · simp only [lookupStatus, setStatus]
              rw [lookupA_upsert_ne _ _ _ _ (fun h => hjne h.symm)]
              exact hlk
          · simp only [hbusy, hterm, Bool.false_eq_true, reduceIte] at hstep
            cases hstep
  | cancelReq k u =>
      simp only [step] at hstep
      rcases cancel_resp_cases s k u with ⟨hresp, hst⟩ | ⟨hresp, hst⟩ |
        ⟨hresp, stF, hjs, hjq2, hbz2, hrj2, hpm2⟩
      · rcases hresp with hresp | hresp <;> rw [hresp] at hstep <;> cases hstep
      · rw [hresp] at hstep
        cases hstep
        rw [hst]
        refine ⟨?_, fun b hb => hbz b hb, ?_⟩
        · intro hmem
          exact hq (((List.eraseP_sublist s.jobQueue).map Job.job_id).subset hmem)
        · simp only [lookupStatus]
          by_cases hkey : jid = k
          · rw [hkey, lookupA_upsert_self]; rfl
          · rw [lookupA_upsert_ne _ _ _ _ hkey]
            exact hlk
      · rw [hresp] at hstep
        cases hstep
        refine ⟨?_, ?_, ?_⟩
        · rw [hjq2]; exact hq
        · intro b hb
          rw [hbz2] at hb
          exact hbz b hb
        · rw [show lookupStatus (cancel s k u).1 jid =
              lookupA (cancel s k u).1.jobStatus jid from rfl, hjs]
          by_cases hkey : jid = k
          · rw [hkey, lookupA_upsert_self]; rfl
          · rw [lookupA_upsert_ne _ _ _ _ hkey, lookupA_upsert_ne _ _ _ _ hkey]
            exact hlk
  | stopReq t u =>
      simp only [step] at hstep
      rcases stop_resp_cases s t u with ⟨hresp, hst⟩ | ⟨hresp, hst⟩ |
        ⟨hresp, hjs, hjq2, hbz2, hrj2, hpm2⟩
      · rcases hresp with hresp | hresp <;> rw [hresp] at hstep <;> cases hstep
      · rw [hresp] at hstep
        cases hstep
        rw [hst]
        refine ⟨?_, fun b hb => hbz b hb, ?_⟩
        · intro hmem
          exact hq (((List.eraseP_sublist s.jobQueue).map Job.job_id).subset hmem)
        · simp only [lookupStatus]
          by_cases hkey : jid = t
          · rw [hkey, lookupA_upsert_self]; rfl
          · rw [lookupA_upsert_ne _ _ _ _ hkey]
            exact hlk
      · rw [hresp] at hstep
        cases hstep
        refine ⟨?_, ?_, ?_⟩
        · rw [hjq2]; exact hq
        · intro b hb
          rw [hbz2] at hb
          exact hbz b hb
        · rw [show lookupStatus (stop_pipeline s t u).1 jid =
              lookupA (stop_pipeline s t u).1.jobStatus jid from rfl, hjs]
          by_cases hkey : jid = t
          · rw [hkey, lookupA_upsert_self]; rfl
          · rw [lookupA_upsert_ne _ _ _ _ hkey]
            exact hlk

theorem gone_exec {σ : Nat → SchedState} {ε : Nat → Ev} {jid : String}
    (h0 : Gone jid (σ 0)) (hexec : IsExec σ ε) : ∀ n, Gone jid (σ n) := by
  intro n
  induction n with
  | zero => exact h0
  | succ n ih => exact gone_step ih (hexec n)

/-- C8: cancelling a queued job by its owner removes exactly its queue entry
and overwrites its record to cancelled; no process is killed, `PROCESS_MAP`,
`RUNNING_JOB`, the worker slot and every other job's record are untouched;
and in any continuation of the execution the worker never dequeues the job
and no process is ever spawned for it. -/
theorem c8_cancel_queued_frame (s s' : SchedState) (jid uid : String)
    (hreach : Reach s)
    (hresp : (cancel s jid uid).2.1 = CancelResp.okQueued)
    (hs' : s' = (cancel s jid uid).1) :
    lookupStatus s' jid = some (cancelledRec uid) ∧
    jid ∉ queueIds s'.jobQueue ∧
    (∀ k, k ≠ jid → lookupStatus s' k = lookupStatus s k) ∧
    s'.processMap = s.processMap ∧ s'.runningJob = s.runningJob ∧
    s'.busy = s.busy ∧
    (cancel s jid uid).2.2 = [] ∧
    s'.jobQueue = s.jobQueue.eraseP (fun j => j.job_id == jid && j.user_id == uid) ∧
    (∀ σ ε, σ 0 = s' → IsExec σ ε →
      ∀ n, ¬ StartsAt σ ε n jid ∧
        ∀ pid, ¬(ε n = Ev.spawn pid ∧ ∃ j, (σ n).busy = some j ∧ j.job_id = jid)) := by
  obtain ⟨heff, x, hxmem, hxid, hxuid⟩ := cancel_okQueued_extra s jid uid hresp
  rcases cancel_resp_cases s jid uid with ⟨hr, _⟩ | ⟨_, hst⟩ |
    ⟨hr, _⟩
  · rcases hr with hr | hr <;> rw [hr] at hresp <;> cases hresp
  case _ =>
    subst hs'
    rw [hst]
    have inv := inv_reach hreach
    have hgoneQ : jid ∉ queueIds (s.jobQueue.eraseP
        (fun j => j.job_id == jid && j.user_id == uid)) := by
      refine not_mem_ids_eraseP inv.nodup ⟨x, hxmem, by simp [hxid, hxuid]⟩ ?_
      intro y hy
      simp only [Bool.and_eq_true, beq_iff_eq] at hy
      exact hy.1
    have hgone : Gone jid { s with
        jobStatus := upsert s.jobStatus jid (cancelledRec uid)
        jobQueue := s.jobQueue.eraseP (fun j => j.job_id == jid && j.user_id == uid) } := by
      refine ⟨hgoneQ, ?_, ?_⟩
      · intro b hb
        have hb' : s.busy = some b := hb
        intro heq
        exact inv.busyNotQueued b hb'
          (heq ▸ mem_queueIds.mpr ⟨x, hxmem, hxid⟩)
      · simp only [lookupStatus]
        rw [lookupA_upsert_self]
        rfl
    refine ⟨?_, hgoneQ, ?_, rfl, rfl, rfl, heff, rfl, ?_⟩
    · simp only [lookupStatus]
      rw [lookupA_upsert_self]
    · intro k hk
      simp only [lookupStatus]
      rw [lookupA_upsert_ne _ _ _ _ hk]
    · intro σ ε h0 hexec n
      have hgn := gone_exec (h0 ▸ hgone) hexec n
      constructor
      · intro hsA
        rcases hsA with ⟨_, hhead⟩
        cases hq : (σ n).jobQueue with
        | nil => rw [hq] at hhead; cases hhead
        | cons y t =>
            rw [hq] at hhead
            apply hgn.1
            rw [hq]
            exact mem_queueIds.mpr ⟨y, List.mem_cons_self y t, Option.some.inj hhead⟩
      · intro pid hsp
        rcases hsp with ⟨_, j, hbj, hjid⟩
        exact hgn.2.1 j hbj hjid
  case _ =>
    rw [hr] at hresp
    cases hresp

/-- C8 (witness): cancelling the queued `j1` in the concrete one-job state. -/
theorem c8_cancel_queued_frame_witness :
    (Reach sQueued ∧ (cancel sQueued "j1" "u1").2.1 = CancelResp.okQueued) ∧
    (lookupStatus (cancel sQueued "j1" "u1").1 "j1" = some (cancelledRec "u1") ∧
      "j1" ∉ queueIds (cancel sQueued "j1" "u1").1.jobQueue ∧
      (∀ k, k ≠ "j1" →
        lookupStatus (cancel sQueued "j1" "u1").1 k = lookupStatus sQueued k) ∧
      (cancel sQueued "j1" "u1").1.processMap = sQueued.processMap ∧
      (cancel sQueued "j1" "u1").1.runningJob = sQueued.runningJob ∧
      (cancel sQueued "j1" "u1").1.busy = sQueued.busy ∧
      (cancel sQueued "j1" "u1").2.2 = [] ∧
      (cancel sQueued "j1" "u1").1.jobQueue =
        sQueued.jobQueue.eraseP (fun j => j.job_id == "j1" && j.user_id == "u1") ∧
      (∀ σ ε, σ 0 = (cancel sQueued "j1" "u1").1 → IsExec σ ε →
        ∀ n, ¬ StartsAt σ ε n "j1" ∧
          ∀ pid, ¬(ε n = Ev.spawn pid ∧
            ∃ j, (σ n).busy = some j ∧ j.job_id = "j1"))) :=
  ⟨⟨reach_sQueued, by decide⟩,
   c8_cancel_queued_frame sQueued (cancel sQueued "j1" "u1").1 "j1" "u1"
     reach_sQueued (by decide) rfl⟩

/-! ## Claim C9: `_kill_process_tree` never throws and is idempotent -/

/-- A snapshot of the OS process table: alive processes as
`(pid, parent pid)` pairs. -/
structure OsState where
  procs : List (Nat × Nat)
  deriving DecidableEq, Repr

/-- The pids currently alive. -/
def alivePids (s : OsState) : List Nat := s.procs.map (fun p => p.1)

/-- One breadth step of descendant discovery: adjoin the pids whose parent is
already collected. -/
def growOnce (s : OsState) (acc : List Nat) : List Nat :=
  acc ++ (s.procs.filter
    (fun p => decide (p.2 ∈ acc) && !(decide (p.1 ∈ acc)))).map (fun p => p.1)

/-- The pid together with all its transitive descendants, as enumerated by
`parent.children(recursive=True)` in the psutil branch of
`_kill_process_tree`. -/
def treePids (s : OsState) (pid : Nat) : List Nat :=
  (List.range s.procs.length).foldl (fun acc _ => growOnce s acc) [pid]

/-- The table after removing `pid` and its whole subtree. -/
def killSweep (s : OsState) (pid : Nat) : OsState :=
  { procs := s.procs.filter (fun p => !(decide (p.1 ∈ treePids s pid))) }

/-- The body of `_kill_process_tree` without the outer `try`, at the level of
its net effect on the process table.  `psutil.Process(pid)` raises
`NoSuchProcess` for a dead pid.  Otherwise every child is sent `terminate`,
the parent is terminated, and survivors are killed — each of those calls has
its own inner `try`/`except`, so the sweep completes and the whole subtree is
gone (the Windows `taskkill /T /F` and the POSIX
`killpg SIGTERM`/`killpg SIGKILL` fallbacks have the same net effect on the
table and the same swallowed-exception discipline). -/
def killTreeBody (s : OsState) (pid : Nat) : Except String OsState :=
  if pid ∈ alivePids s then .ok (killSweep s pid)
  else .error "NoSuchProcess"

/-- `_kill_process_tree` (api_server.py 113-170): the whole body is wrapped
in `try ... except Exception: pass`, so any raised error leaves the process
table as it was and nothing propagates to the caller. -/
def _kill_process_tree (s : OsState) (pid : Nat) : OsState :=
  match killTreeBody s pid with
  | .ok s' => s'
  | .error _ => s

theorem mem_treePids_self (s : OsState) (pid : Nat) : pid ∈ treePids s pid := by
  unfold treePids
  have key : ∀ (l : List Nat) (acc : List Nat), pid ∈ acc →
      pid ∈ l.foldl (fun acc _ => growOnce s acc) acc := by
    intro l
    induction l with
    | nil => intro acc h; exact h
    | cons x t ih =>
        intro acc h
        exact ih _ (List.mem_append_left _ h)
  exact key _ [pid] (List.mem_singleton.mpr rfl)

theorem not_alive_after_kill (s : OsState) (pid : Nat) :
    pid ∉ alivePids (killSweep s pid) := by
  intro hmem
  simp only [alivePids, killSweep, List.mem_map] at hmem
  obtain ⟨p, hp, hp1⟩ := hmem
  have := List.of_mem_filter hp
  rw [hp1] at this
  simp only [Bool.not_eq_true', decide_eq_false_iff_not] at this
  exact this (mem_treePids_self s pid)

/-- C9: `_kill_process_tree` absorbs every error raised by its body (its
caller never sees an exception — in particular not for an already-exited
pid, for which the body raises `NoSuchProcess` and the state is left
unchanged), and it is idempotent: a second invocation on the same pid finds
the process dead and changes nothing. -/
theorem c9_kill_tree_idempotent_no_throw (s : OsState) (pid : Nat) :
    (∀ err, killTreeBody s pid = Except.error err → _kill_process_tree s pid = s) ∧
    (pid ∉ alivePids s → _kill_process_tree s pid = s) ∧
    _kill_process_tree (_kill_process_tree s pid) pid = _kill_process_tree s pid := by
  refine ⟨?_, ?_, ?_⟩
  · intro err herr
    unfold _kill_process_tree
    rw [herr]
  · intro hdead
    unfold _kill_process_tree killTreeBody
    rw [if_neg hdead]
  · by_cases halive : pid ∈ alivePids s
    · have h1 : _kill_process_tree s pid = killSweep s pid := by
        unfold _kill_process_tree killTreeBody
        rw [if_pos halive]
      rw [h1]
      unfold _kill_process_tree killTreeBody
      rw [if_neg (not_alive_after_kill s pid)]
    · have h1 : _kill_process_tree s pid = s := by
        unfold _kill_process_tree killTreeBody
        rw [if_neg halive]
      rw [h1]
      exact h1

/-- A concrete process table: pid 1 with children 2 and 4, grandchild 3;
pid 7 unrelated. -/
def os0 : OsState := { procs := [(1, 0), (2, 1), (3, 2), (4, 1), (7, 5)] }

/-- C9 (witness): the theorem at a concrete table, plus the discharged
already-dead case for pid 99. -/
theorem c9_kill_tree_idempotent_no_throw_witness :
    ((∀ err, killTreeBody os0 1 = Except.error err → _kill_process_tree os0 1 = os0) ∧
      (1 ∉ alivePids os0 → _kill_process_tree os0 1 = os0) ∧
      _kill_process_tree (_kill_process_tree os0 1) 1 = _kill_process_tree os0 1) ∧
    (99 ∉ alivePids os0 ∧ _kill_process_tree os0 99 = os0) :=
  ⟨c9_kill_tree_idempotent_no_throw os0 1,
   by decide, (c9_kill_tree_idempotent_no_throw os0 99).2.1 (by decide)⟩

end TransVox
